import Mathlib

/-!
Verification of the query-intelligence and result-fusion core of the
xiaoyaosearch desktop file-search application.

The Lean definitions below are a shallow embedding of the Python sources:

* `backend/app/services/search_service.py` — hybrid search merge engine
* `backend/services/llm/llm_providers/base_provider.py` — capability adapter
  (retry, caching, usage accounting)
* `backend/services/llm/models/llm_response.py` — response data model
* `backend/services/llm/query_understanding_service.py` — orchestrator fusion
* `backend/services/llm/query_processors/intent_analyzer.py` — intent rules
* `backend/services/llm/query_processors/time_parser.py` — time resolution
* `backend/services/llm/query_processors/query_expander.py` — query expansion
* `backend/services/llm/query_processors/language_detector.py` — language stats

Modelling conventions used throughout:

* Python floats are modelled as rationals (`ℚ`); the claims under study are
  order-theoretic (comparisons, `min`, sorting) and do not depend on binary
  rounding.
* Python `dict`s are modelled as insertion-ordered association lists, which
  is Python 3.7+ semantics for iteration order.
* Exceptions are modelled with `Except PyErr`; a function that cannot raise
  is total.
* `datetime.date` values are modelled by their proleptic-Gregorian ordinal
  (`date.toordinal`, an integer), which is a bijective representation;
  `weekday` is ordinal arithmetic, Monday = 0, exactly as in CPython.
* The MD5 cache key of `base_provider.py` is modelled by the hashed content
  string itself (the model assumes no hash collisions, i.e. the key is the
  canonical request description).
-/

/-- Python exceptions, as far as the modelled code distinguishes them. -/
inductive PyErr where
  | valueError (msg : String)
  | typeError (msg : String)
  | nameError (name : String)
  | timeoutError
  | jsonDecodeError
  | other (msg : String)
deriving DecidableEq, Repr

/-! ## Hybrid search merge engine

Embedding of `SearchService._merge_search_results`
(`backend/app/services/search_service.py`, lines 345–376). -/

/-- One search hit, as handled by `_merge_search_results`: the fields of the
result dict that the merge reads or writes (`id`, `relevance_score`,
`match_type`).  Scores are rationals standing for Python floats. -/
structure SearchHit where
  id : String
  relevance_score : ℚ
  match_type : String
deriving DecidableEq, Repr

/-- The boost applied to a semantic hit inside the merge loop:
`result['relevance_score'] = min(result['relevance_score'] * 1.2, 1.0)` and
`result['match_type'] = 'hybrid'`. -/
def boostHit (h : SearchHit) : SearchHit :=
  { h with relevance_score := min (h.relevance_score * (6 / 5)) 1, match_type := "hybrid" }

/-- First merge loop over `semantic_results`: keep each unseen id, boosted;
`seen` is the accumulated `seen_ids` set. -/
def semPass (seen : List String) : List SearchHit → List SearchHit
  | [] => []
  | r :: rest =>
    if r.id ∈ seen then semPass seen rest
    else boostHit r :: semPass (r.id :: seen) rest

/-- The `seen_ids` set after a dedup loop has consumed its input list. -/
def seenAfter (seen : List String) : List SearchHit → List String
  | [] => seen
  | r :: rest =>
    if r.id ∈ seen then seenAfter seen rest
    else seenAfter (r.id :: seen) rest

/-- Second merge loop over `fulltext_results`: append hits whose id was not
seen, unchanged. -/
def fulPass (seen : List String) : List SearchHit → List SearchHit
  | [] => []
  | r :: rest =>
    if r.id ∈ seen then fulPass seen rest
    else r :: fulPass (r.id :: seen) rest

/-- Stable insertion used to model `merged.sort(key=lambda x: ..., reverse=True)`.
Python's sort is stable; with `reverse=True` it orders by non-increasing
`relevance_score`, keeping ties in their original order.  A stable sort's
output is uniquely determined by the comparator, so this structurally
recursive stable insertion sort computes exactly the list CPython's timsort
produces. -/
def insertDesc (a : SearchHit) : List SearchHit → List SearchHit
  | [] => [a]
  | b :: l =>
    if a.relevance_score ≤ b.relevance_score then b :: insertDesc a l
    else a :: b :: l

/-- Stable sort by non-increasing relevance score (see `insertDesc`). -/
def pySortDesc (l : List SearchHit) : List SearchHit :=
  l.foldl (fun acc x => insertDesc x acc) []

/-- `SearchService._merge_search_results(semantic_results, fulltext_results, limit)`:
dedup by document id with semantic priority and boost, append unseen fulltext
hits, sort by descending relevance score, truncate to `limit`. -/
def mergeSearchResults (semantic_results fulltext_results : List SearchHit) (limit : ℕ) :
    List SearchHit :=
  let merged := semPass [] semantic_results ++
    fulPass (seenAfter [] semantic_results) fulltext_results
  (pySortDesc merged).take limit

/-! ## Capability adapter and response model

Embedding of `backend/services/llm/models/llm_response.py` and
`BaseLLMProvider` (`backend/services/llm/llm_providers/base_provider.py`).
Wall-clock timestamps (`datetime.now().timestamp()`) are modelled as integer
seconds; the modelled code only compares time differences against the integer
`cache_ttl`.  `response_time_ms` is wall-clock dependent and modelled as `0`.
The provider-specific `_generate_completion` call (including its
`asyncio.wait_for` timeout) is abstracted as an oracle giving the outcome of
each successive capability invocation; a raised timeout is just one possible
`PyErr`. -/

/-- `ResponseStatus` from `llm_response.py`. -/
inductive ResponseStatus where
  | success
  | error
  | timeout
  | rate_limited
  | model_unavailable
  | invalid_request
deriving DecidableEq, Repr

/-- `LLMErrorInfo` from `llm_response.py`: classified error information,
including the `is_recoverable` flag. -/
structure LLMErrorInfo where
  error_type : String
  error_message : String
  error_code : Option String := none
  retry_count : ℕ := 0
  is_recoverable : Bool := false
  fallback_used : Bool := false
deriving DecidableEq, Repr

/-- `LLMRequestMetadata` from `llm_response.py`. -/
structure LLMRequestMetadata where
  provider : String
  model : String
  prompt_tokens : Option ℕ := none
  completion_tokens : Option ℕ := none
  total_tokens : Option ℕ := none
  response_time_ms : ℕ
  cost_usd : Option ℚ := none
  cache_hit : Bool := false
  temperature : Option ℚ := none
  max_tokens : Option ℕ := none
deriving DecidableEq, Repr

/-- `LLMResponseData` (the fields the adapter populates; `raw_response` and
the other optional payload fields are not read by the modelled code). -/
structure LLMResponseData where
  content : String
deriving DecidableEq, Repr

/-- Python `str.isspace` whitespace for the ASCII range (space, tab,
newline, carriage return, vertical tab, form feed), as used by `str.strip`
and `str.split`. -/
def pyIsSpace (c : Char) : Bool :=
  c = ' ' || c = '\t' || c = '\n' || c = '\r' || c.toNat = 11 || c.toNat = 12

/-- Python `str.strip()` (no argument): drop leading and trailing
whitespace. -/
def pyStrip (s : String) : String :=
  ⟨((s.data.dropWhile pyIsSpace).reverse.dropWhile pyIsSpace).reverse⟩

/-- The pydantic validator `validate_content_not_empty` on
`LLMResponseData.content` (`if not v.strip()`): constructing response data
with whitespace-only content raises `ValueError`. -/
def mkLLMResponseData (content : String) : Except PyErr LLMResponseData :=
  if pyStrip content = "" then .error (.valueError "Content cannot be empty")
  else .ok ⟨content⟩

/-- `LLMResponse` from `llm_response.py`. -/
structure LLMResponse where
  status : ResponseStatus
  data : Option LLMResponseData := none
  error : Option LLMErrorInfo := none
  metadata : LLMRequestMetadata
deriving DecidableEq, Repr

/-- `LLMResponse.is_successful`. -/
def LLMResponse.is_successful (r : LLMResponse) : Bool := r.status = ResponseStatus.success

/-- `LLMConfig` from `base_provider.py` (timestamps in integer seconds). -/
structure LLMConfig where
  model : String
  temperature : ℚ := 1 / 10
  max_tokens : ℕ := 500
  timeout : ℕ := 30
  max_retries : ℕ := 3
  retry_delay : ℚ := 1
  enable_caching : Bool := true
  cache_ttl : ℤ := 3600
  cost_per_token : ℚ := 0
deriving DecidableEq, Repr

/-- The deterministic cache key of `_generate_cache_key`: the MD5 input is
`f"{prompt}:{system_prompt or ''}:{temperature}:{max_tokens}"`; the model
keeps the request description itself (assuming no MD5 collisions). -/
structure CacheKey where
  prompt : String
  system_prompt : String
  temperature : ℚ
  max_tokens : ℕ
deriving DecidableEq, Repr

def generateCacheKey (cfg : LLMConfig) (prompt : String) (system_prompt : Option String) :
    CacheKey :=
  ⟨prompt, system_prompt.getD "", cfg.temperature, cfg.max_tokens⟩

/-- `self._cache`: a Python dict keyed by cache key, holding
`(response, timestamp)` pairs, modelled as an insertion-ordered
association list. -/
abbrev ResponseCache := List (CacheKey × LLMResponse × ℤ)

/-- Dict lookup (`cache_key in self._cache` / `self._cache[cache_key]`). -/
def dictLookup (k : CacheKey) (c : ResponseCache) : Option (LLMResponse × ℤ) :=
  (c.find? (fun e => e.1 == k)).map (·.2)

/-- Dict assignment `self._cache[k] = v`: update in place if the key exists,
otherwise append (insertion order). -/
def dictSet (k : CacheKey) (v : LLMResponse × ℤ) : ResponseCache → ResponseCache
  | [] => [(k, v)]
  | e :: rest => if e.1 = k then (k, v) :: rest else e :: dictSet k v rest

/-- `del self._cache[k]`. -/
def dictDel (k : CacheKey) (c : ResponseCache) : ResponseCache :=
  c.eraseP (fun e => e.1 == k)

/-- `min(self._cache.keys(), key=lambda k: self._cache[k][1])`: the first key
(in insertion order) whose insertion timestamp is minimal. -/
def oldestKey : ResponseCache → Option CacheKey
  | [] => none
  | e :: rest =>
    some ((rest.foldl
      (fun best f => if f.2.2 < best.2 then (f.1, f.2.2) else best)
      (e.1, e.2.2)).1)

/-- `BaseLLMProvider._get_cached_response` (lines 150–164): on a fresh hit,
the cached response object is mutated with `cache_hit = True` and returned
(the mutation is visible in the stored entry too); an expired entry is
deleted.  Returns the optional response and the updated cache. -/
def getCachedResponse (cfg : LLMConfig) (cache_key : CacheKey) (now : ℤ)
    (cache : ResponseCache) : Option LLMResponse × ResponseCache :=
  if !cfg.enable_caching then (none, cache)
  else
    match dictLookup cache_key cache with
    | none => (none, cache)
    | some (resp, ts) =>
      if now - ts < cfg.cache_ttl then
        let resp' := { resp with metadata := { resp.metadata with cache_hit := true } }
        (some resp', dictSet cache_key (resp', ts) cache)
      else (none, dictDel cache_key cache)

/-- `BaseLLMProvider._cache_response` (lines 166–175): cache successful
responses; when the dict exceeds 1000 entries, evict the entry with the
oldest insertion timestamp. -/
def cacheResponse (cfg : LLMConfig) (cache_key : CacheKey) (resp : LLMResponse) (now : ℤ)
    (cache : ResponseCache) : ResponseCache :=
  if cfg.enable_caching && resp.is_successful then
    let c := dictSet cache_key (resp, now) cache
    if 1000 < c.length then
      match oldestKey c with
      | some k => dictDel k c
      | none => c
    else c
  else cache

/-- Usage counters `_request_count`, `_total_tokens`, `_total_cost`. -/
structure UsageStats where
  request_count : ℕ := 0
  total_tokens : ℕ := 0
  total_cost : ℚ := 0
deriving DecidableEq, Repr

/-- The outcome of one raw capability invocation
(`_generate_completion` + `_extract_content` + `_extract_usage_info`),
already reduced to the data the adapter reads. -/
structure AttemptOk where
  content : String
  prompt_tokens : Option ℕ := none
  completion_tokens : Option ℕ := none
  total_tokens : Option ℕ := none
deriving DecidableEq, Repr

/-- Oracle giving the outcome of the n-th capability invocation made by this
provider instance. -/
abbrev CapabilityOracle := ℕ → Except PyErr AttemptOk

/-- The statistics update in `_attempt_generation` (lines 258–263);
`if usage_info.get('total_tokens')` is Python truthiness, so `0` and `None`
both skip the token/cost accounting.  Returns the updated counters and the
`cost` local when it was computed (used for `metadata.cost_usd`). -/
def updateStats (cfg : LLMConfig) (ok : AttemptOk) (st : UsageStats) : UsageStats × Option ℚ :=
  let st1 := { st with request_count := st.request_count + 1 }
  match ok.total_tokens with
  | some t =>
    if t ≠ 0 then
      let cost := (t : ℚ) * cfg.cost_per_token
      ({ st1 with total_tokens := st1.total_tokens + t,
                  total_cost := st1.total_cost + cost }, some cost)
    else (st1, none)
  | none => (st1, none)

/-- `BaseLLMProvider._attempt_generation` (lines 238–292): one capability
invocation; a successful invocation updates the usage counters and builds a
success `LLMResponse` (whose pydantic content validator may still raise). -/
def attemptGeneration (cfg : LLMConfig) (provider : String) (oracle : CapabilityOracle)
    (inv : ℕ) (stats : UsageStats) : Except PyErr LLMResponse × UsageStats :=
  match oracle inv with
  | .error e => (.error e, stats)
  | .ok ok =>
    let p := updateStats cfg ok stats
    match mkLLMResponseData ok.content with
    | .error e => (.error e, p.1)
    | .ok d =>
      let md : LLMRequestMetadata :=
        { provider := provider, model := cfg.model,
          prompt_tokens := ok.prompt_tokens,
          completion_tokens := ok.completion_tokens,
          total_tokens := ok.total_tokens,
          response_time_ms := 0,
          cost_usd := p.2,
          cache_hit := false,
          temperature := some cfg.temperature,
          max_tokens := some cfg.max_tokens }
      (.ok { status := .success, data := some d, error := none, metadata := md }, p.1)

/-- The retry loop of `generate_response`
(`for attempt in range(self.config.max_retries + 1)`), with `remaining`
counting the retries still allowed after the current attempt.  Returns the
final outcome, the updated counters, and the number of attempts made. -/
def retryAttempts (cfg : LLMConfig) (provider : String) (oracle : CapabilityOracle)
    (inv : ℕ) (stats : UsageStats) :
    (remaining : ℕ) → Except PyErr LLMResponse × UsageStats × ℕ
  | 0 => match attemptGeneration cfg provider oracle inv stats with
    | (res, st') => (res, st', 1)
  | n + 1 =>
    match attemptGeneration cfg provider oracle inv stats with
    | (.ok r, st') => (.ok r, st', 1)
    | (.error _, st') =>
      let rec3 := retryAttempts cfg provider oracle (inv + 1) st' n
      (rec3.1, rec3.2.1, rec3.2.2 + 1)

/-- The mutable provider instance state: response cache, usage counters, and
the number of capability invocations made so far (the oracle index). -/
structure ProviderState where
  cache : ResponseCache := []
  stats : UsageStats := {}
  invocations : ℕ := 0
deriving DecidableEq, Repr

/-- `BaseLLMProvider.generate_response` (lines 177–236): check the cache,
then attempt generation with retry; on exhausted retries return an
error-status response carrying `_extract_error_info` of the last exception.
The function is total: every expected failure becomes a response value. -/
def generateResponse (cfg : LLMConfig) (provider : String)
    (extractErrorInfo : PyErr → LLMErrorInfo) (oracle : CapabilityOracle)
    (prompt : String) (system_prompt : Option String) (now : ℤ)
    (st : ProviderState) : LLMResponse × ProviderState :=
  let cache_key := generateCacheKey cfg prompt system_prompt
  match getCachedResponse cfg cache_key now st.cache with
  | (some r, cache') => (r, { st with cache := cache' })
  | (none, cache') =>
    let out := retryAttempts cfg provider oracle st.invocations st.stats cfg.max_retries
    match out.1 with
    | .ok r =>
      let cache2 := cacheResponse cfg cache_key r now cache'
      (r, { cache := cache2, stats := out.2.1, invocations := st.invocations + out.2.2 })
    | .error e =>
      let md : LLMRequestMetadata :=
        { provider := provider, model := cfg.model,
          response_time_ms := 0,
          temperature := some cfg.temperature,
          max_tokens := some cfg.max_tokens }
      ({ status := .error, data := none, error := some (extractErrorInfo e), metadata := md },
       { cache := cache', stats := out.2.1, invocations := st.invocations + out.2.2 })

/-- The spec's data-model invariant for capability responses: success-status
responses carry non-empty content and no error info; non-success responses
carry error info and no content. -/
def LLMResponse.wellFormed (r : LLMResponse) : Prop :=
  (r.status = ResponseStatus.success →
    r.error = none ∧ ∃ d, r.data = some d ∧ pyStrip d.content ≠ "") ∧
  (r.status ≠ ResponseStatus.success → r.data = none ∧ r.error.isSome)

/-- Invariant on the response cache: it only holds well-formed successful
responses (which is what `_cache_response` inserts). -/
def cacheWellFormed (c : ResponseCache) : Prop :=
  ∀ e ∈ c, (e.2.1).wellFormed ∧ e.2.1.status = ResponseStatus.success

/-- A capability that fails on every invocation. -/
def alwaysFailOracle : CapabilityOracle := fun _ => .error (.other "connection refused")

/-- A capability that fails on its first invocation and succeeds afterwards. -/
def failThenOkOracle : CapabilityOracle := fun i =>
  if i = 0 then .error (.other "connection reset") else .ok { content := "hello" }

/-- A concrete `_extract_error_info` in the style of the providers: classify
and mark the failure recoverable. -/
def simpleErrInfo : PyErr → LLMErrorInfo := fun _ =>
  { error_type := "unknown", error_message := "capability call failed", is_recoverable := true }

/-- Concrete config used by the retry-count counterexample. -/
def cfgRetry : LLMConfig := { model := "m", max_retries := 2, temperature := 0 }

/-- Concrete config used by the cache-idempotence counterexample. -/
def cfgCacheCx : LLMConfig := { model := "m", max_retries := 1, temperature := 0 }

/-! ## Query understanding orchestrator — result fusion

Embedding of `QueryUnderstandingService._create_parsed_query`
(`backend/services/llm/query_understanding_service.py`, lines 257–306).
The function reads the per-component result dicts collected by
`understand_query`; each component is modelled as an optional record
(`none` = the component dict is absent, `None`, or empty — all falsy in
Python), with optional fields for dict keys that may be missing (a failed
component contributes `{'error': ...}`, which has none of the read keys). -/

/-- The fields of the intent component dict read by `_create_parsed_query`. -/
structure IntentComp where
  confidence : Option ℚ := none
  keywords : List String := []
  file_types : List String := []
deriving DecidableEq, Repr

/-- The fields of the keywords component dict read by
`_create_parsed_query`. -/
structure KeywordsComp where
  keywords : List String := []
  method : String := ""
deriving DecidableEq, Repr

/-- The fields of the time component dict (`TimeRange.__dict__`) read by
`_create_parsed_query`; dates are ordinals. -/
structure TimeComp where
  start_date : Option ℤ := none
  end_date : Option ℤ := none
  confidence : Option ℚ := none
deriving DecidableEq, Repr

/-- The fields of the expansion component dict read by
`_create_parsed_query`. -/
structure ExpComp where
  synonyms : List String := []
  expansion_confidence : Option ℚ := none
deriving DecidableEq, Repr

/-- The `value` payload of a `QueryFilter`. -/
inductive FilterValue where
  | file_types (value : List String)
  | date_range (start : ℤ) (stop : Option ℤ)
deriving DecidableEq, Repr

/-- `QueryFilter` as built by `_create_parsed_query`. -/
structure QueryFilter where
  filter_type : String
  value : FilterValue
  op : String
  confidence : ℚ
deriving DecidableEq, Repr

/-- The parsed-query dict returned by `_create_parsed_query`. -/
structure ParsedQuery where
  original_query : String
  normalized_query : String
  expanded_query : List String
  search_terms : List String
  filters : List QueryFilter
  language : Option String
  confidence : ℚ
deriving DecidableEq, Repr

/-- `QueryUnderstandingService._create_parsed_query`.  The final
`confidence` is
`min(intent.get('confidence', 0.5),
     keywords.get('method','') == 'llm_based' and 0.8 or 0.5,
     time_info.get('confidence', 0.5) if time_info else 1.0,
     expansion.get('expansion_confidence', 0.5) if expansion else 1.0)`.
`list(set(search_terms))` has unspecified (hash-based) ordering in Python;
the model keeps first-occurrence order of the same element set. -/
def createParsedQuery (original_query : String) (language : Option String)
    (intent : Option IntentComp) (keywords : Option KeywordsComp)
    (time_info : Option TimeComp) (expansion : Option ExpComp) : ParsedQuery :=
  let search_terms :=
    (match keywords with | some k => k.keywords | none => []) ++
    (match intent with | some i => i.keywords | none => [])
  let intent_filters : List QueryFilter :=
    match intent with
    | some i =>
      if i.file_types ≠ [] then
        [⟨"file_type", .file_types i.file_types, "in", i.confidence.getD (1 / 2)⟩]
      else []
    | none => []
  let time_filters : List QueryFilter :=
    match time_info with
    | some t =>
      match t.start_date with
      | some sd => [⟨"date_range", .date_range sd t.end_date, "range", t.confidence.getD (1 / 2)⟩]
      | none => []
    | none => []
  { original_query := original_query
    normalized_query := pyStrip original_query
    expanded_query := match expansion with | some e => e.synonyms | none => []
    search_terms := search_terms.eraseDups
    filters := intent_filters ++ time_filters
    language := language
    confidence :=
      min (min (min
        ((intent.map (fun i => i.confidence.getD (1 / 2))).getD (1 / 2))
        (if (keywords.map (fun k => k.method)).getD "" = "llm_based" then 4 / 5 else 1 / 2))
        (match time_info with | some t => t.confidence.getD (1 / 2) | none => 1))
        (match expansion with | some e => e.expansion_confidence.getD (1 / 2) | none => 1) }

/-! ## Intent analyzer — rule-based analysis

Embedding of `IntentAnalyzer._rule_based_intent_analysis`
(`backend/services/llm/query_processors/intent_analyzer.py`, lines 109–171).
Every intent pattern is `\b(alt1|alt2|...)\b` where each alternative consists
solely of Python word characters (ASCII alphanumerics, `_`, CJK ideographs),
so `re.findall` reduces to a left-to-right non-overlapping scan: at a
position preceded by a non-word character (or the start), the alternatives
are tried in order; an alternative matches when it is a prefix of the
remaining text followed by a non-word character (or the end).  The analyzer
lowercases the query first, and all pattern literals are lowercase, which
makes `re.IGNORECASE` a no-op here. -/

/-- `IntentType` from `models/query_intent.py`. -/
inductive IntentType where
  | document_search
  | image_search
  | audio_search
  | video_search
  | mixed_search
  | semantic_search
  | factual_search
  | unknown
deriving DecidableEq, Repr

/-- Python `\w` over the character ranges occurring in the analyzer's
patterns and queries: ASCII alphanumerics, underscore, CJK ideographs. -/
def isWordChar (c : Char) : Bool :=
  c.isAlphanum || c = '_' || (0x4E00 ≤ c.toNat && c.toNat ≤ 0x9FFF)

/-- Python `str.lower()` for ASCII letters (CJK characters are unchanged). -/
def pyLower (s : String) : String := ⟨s.data.map Char.toLower⟩

/-- Try the alternatives of `\b(alt1|...|altN)\b` at the current position,
in order; an alternative succeeds if it is a literal prefix and the trailing
word boundary holds (every alternative is made of word characters, so the
boundary means end-of-string or a non-word character). -/
def altTry (alts : List (List Char)) (s : List Char) : Option (List Char) :=
  match alts with
  | [] => none
  | a :: rest =>
    if a.isPrefixOf s then
      match s.drop a.length with
      | [] => some a
      | c :: _ => if isWordChar c then altTry rest s else some a
    else altTry rest s

/-- The `re.findall` scan for `\b(alts)\b`, counting non-overlapping
matches.  `prevW` tells whether the previous character is a word character
(no boundary); `skip` counts characters of a current match still to be
consumed. -/
def scanCount (alts : List (List Char)) : List Char → Bool → ℕ → ℕ
  | [], _, _ => 0
  | c :: rest, prevW, skip =>
    match skip with
    | Nat.succ k => scanCount alts rest (isWordChar c) k
    | 0 =>
      if !prevW then
        match altTry alts (c :: rest) with
        | some a => 1 + scanCount alts rest (isWordChar c) (a.length - 1)
        | none => scanCount alts rest (isWordChar c) 0
      else scanCount alts rest (isWordChar c) 0

/-- `len(re.findall(pattern, query_lower, re.IGNORECASE))` for one intent
pattern (a boundary-delimited alternation of literals). -/
def findallCount (alts : List String) (q : List Char) : ℕ :=
  scanCount (alts.map String.data) q false 0

/-- `self.intent_patterns`, in dict insertion order. -/
def intentPatterns : List (IntentType × List (List String)) :=
  [(.document_search,
    [["文档", "文件", "资料", "材料", "文本", "pdf", "doc", "txt", "word", "excel"],
     ["document", "file", "text", "pdf", "doc", "word", "excel", "paper", "article"],
     ["报告", "论文", "合同", "方案", "计划", "总结"],
     ["report", "paper", "contract", "proposal", "plan", "summary"]]),
   (.image_search,
    [["图片", "图像", "照片", "截图", "画", "图", "jpeg", "jpg", "png", "gif"],
     ["image", "picture", "photo", "screenshot", "drawing", "graphic", "jpeg", "jpg", "png",
      "gif"],
     ["截图", "照片", "相册", "壁纸", "图标"],
     ["screenshot", "photo", "album", "wallpaper", "icon", "avatar"]]),
   (.audio_search,
    [["音频", "音乐", "歌曲", "录音", "声音", "mp3", "wav", "flac"],
     ["audio", "music", "song", "recording", "sound", "mp3", "wav", "flac", "podcast"],
     ["播客", "有声书", "铃声"],
     ["podcast", "audiobook", "ringtone"]]),
   (.video_search,
    [["视频", "影片", "电影", "动画", "录像", "mp4", "avi", "mkv"],
     ["video", "movie", "film", "animation", "recording", "mp4", "avi", "mkv", "clip"],
     ["短片", "教程", "演示", "会议录像"],
     ["short", "tutorial", "demo", "meeting_recording"]])]

/-- `self.file_type_patterns`: each is `\.(ext1|...|extN)$`. -/
def fileTypePatterns : List (IntentType × List String) :=
  [(.document_search, ["pdf", "doc", "docx", "txt", "rtf", "odt", "xls", "xlsx", "ppt", "pptx"]),
   (.image_search, ["jpg", "jpeg", "png", "gif", "bmp", "tiff", "svg", "webp"]),
   (.audio_search, ["mp3", "wav", "flac", "aac", "ogg", "wma", "m4a"]),
   (.video_search, ["mp4", "avi", "mkv", "mov", "wmv", "flv", "webm", "m4v"])]

/-- `re.search(r'\.(exts)$', query_lower)`: the query ends with a dot
followed by one of the extensions. -/
def extMatch (q : List Char) (exts : List String) : Bool :=
  exts.any (fun e => ('.' :: e.data).isSuffixOf q)

/-- Second scoring loop: `intent_scores[intent_type] += 1` when it exists,
else `intent_scores[intent_type] = 1` (appending in dict insertion order). -/
def bumpOrAppend (it : IntentType) : List (IntentType × ℕ) → List (IntentType × ℕ)
  | [] => [(it, 1)]
  | p :: rest => if p.1 = it then (p.1, p.2 + 1) :: rest else p :: bumpOrAppend it rest

/-- The `intent_scores` dict after both scoring loops, as an
insertion-ordered association list: first the pattern scores (categories in
`intent_patterns` order, kept only when positive), then the file-extension
bumps (in `file_type_patterns` order). -/
def intentScores (query : String) : List (IntentType × ℕ) :=
  let q := (pyLower query).data
  fileTypePatterns.foldl
    (fun acc p => if extMatch q p.2 then bumpOrAppend p.1 acc else acc)
    (intentPatterns.foldl
      (fun acc p =>
        let score := (p.2.map (fun alts => findallCount alts q)).sum
        if 0 < score then acc ++ [(p.1, score)] else acc) [])

/-- `max(intent_scores.items(), key=lambda x: x[1])`: Python's `max` returns
the first item attaining the maximum, in dict insertion order. -/
def pyMaxScore : List (IntentType × ℕ) → Option (IntentType × ℕ)
  | [] => none
  | p :: rest => some (rest.foldl (fun best f => if best.2 < f.2 then f else best) p)

/-- The intent-type and confidence part of the `QueryIntent` built by
`_rule_based_intent_analysis` (the keyword/entity/language fields are
separate extractions not involved in intent selection). -/
structure RuleIntentResult where
  intent_type : IntentType
  confidence : ℚ
deriving DecidableEq, Repr

/-- `IntentAnalyzer._rule_based_intent_analysis`: empty score dict defaults
to document search with confidence 0.3; otherwise the first maximal entry
wins and the confidence is `min(max_score / max(total_score, 1), 1.0)`. -/
def ruleBasedIntentAnalysis (query : String) : RuleIntentResult :=
  match pyMaxScore (intentScores query) with
  | none => ⟨.document_search, 3 / 10⟩
  | some best =>
    let total := ((intentScores query).map (fun p => p.2)).sum
    let maxScore := ((intentScores query).map (fun p => p.2)).foldl max 0
    ⟨best.1, min ((maxScore : ℚ) / (max total 1 : ℕ)) 1⟩

/-! ## Time parser

Embedding of `TimeParser` (`backend/services/llm/query_processors/time_parser.py`).
A Python `date` is represented by its proleptic-Gregorian ordinal
(`date.toordinal() : ℤ`, a bijective encoding); `timedelta(days=n)` is
ordinal addition, `weekday()` is `(ordinal - 1) % 7` (Monday = 0, exactly
CPython's arithmetic).  Calendar structure (`.year`, `.month`, `.day`,
`.replace`) goes through the standard civil-from-days/days-from-civil
conversions; `date`/`datetime` construction validates ranges
(`ValueError` outside year 1–9999 or an invalid day), which the
rule-based parser catches pattern-by-pattern (`except ... continue`). -/

/-- Gregorian leap year. -/
def isLeapYear (y : ℤ) : Bool := (y % 4 == 0 && y % 100 != 0) || y % 400 == 0

/-- Days in a month. -/
def daysInMonth (y : ℤ) (m : ℕ) : ℕ :=
  match m with
  | 1 => 31 | 2 => if isLeapYear y then 29 else 28 | 3 => 31 | 4 => 30
  | 5 => 31 | 6 => 30 | 7 => 31 | 8 => 31 | 9 => 30 | 10 => 31 | 11 => 30
  | 12 => 31 | _ => 0

/-- Days since 1970-03-01-based epoch for a civil date (standard
era-of-400-years computation; `Int.fdiv` is floor division, matching the
usual formulation). -/
def daysFromCivil (y : ℤ) (m d : ℕ) : ℤ :=
  let y' := if m ≤ 2 then y - 1 else y
  let era := Int.fdiv y' 400
  let yoe := (y' - era * 400).toNat
  let mp := if 2 < m then m - 3 else m + 9
  let doy := (153 * mp + 2) / 5 + d - 1
  let doe := yoe * 365 + yoe / 4 - yoe / 100 + doy
  era * 146097 + (doe : ℤ) - 719468

/-- Civil date from the day count of `daysFromCivil`. -/
def civilFromDays (z0 : ℤ) : ℤ × ℕ × ℕ :=
  let z := z0 + 719468
  let era := Int.fdiv z 146097
  let doe := (z - era * 146097).toNat
  let yoe := (doe - doe / 1460 + doe / 36524 - doe / 146096) / 365
  let y := (yoe : ℤ) + era * 400
  let doy := doe - (365 * yoe + yoe / 4 - yoe / 100)
  let mp := (5 * doy + 2) / 153
  let d := doy - (153 * mp + 2) / 5 + 1
  let m := if mp < 10 then mp + 3 else mp - 9
  (if m ≤ 2 then y + 1 else y, m, d)

/-- Python `date.toordinal()` for a (validated) civil date:
`toordinal(1,1,1) = 1`. -/
def civilToOrd (y : ℤ) (m d : ℕ) : ℤ := daysFromCivil y m d + 719163

/-- Civil components of a Python ordinal. -/
def ordToCivil (o : ℤ) : ℤ × ℕ × ℕ := civilFromDays (o - 719163)

/-- `datetime(y, m, d).date()` / `date.replace(...)`: validates year
(1–9999), month and day; raises `ValueError` otherwise. -/
def pyDate (y : ℤ) (m d : ℕ) : Except PyErr ℤ :=
  if 1 ≤ y ∧ y ≤ 9999 ∧ 1 ≤ m ∧ m ≤ 12 ∧ 1 ≤ d ∧ d ≤ daysInMonth y m then
    .ok (civilToOrd y m d)
  else .error (.valueError "date value out of range")

/-- `date.weekday()`: Monday = 0. -/
def pyWeekday (o : ℤ) : ℤ := (o - 1) % 7

/-- `TimeRange` from `models/query_intent.py` (the fields the rule-based
parser populates; dates as ordinals). -/
structure TimeRange where
  start_date : ℤ
  end_date : ℤ
  relative_expression : Option String
  confidence : ℚ
deriving DecidableEq, Repr

/-- `TimeParser._get_this_week`. -/
def getThisWeek (now : ℤ) : Except PyErr (ℤ × ℤ) :=
  let s := now - pyWeekday now
  .ok (s, s + 6)

/-- `TimeParser._get_last_week`: Monday of the preceding week through the
following Sunday. -/
def getLastWeek (now : ℤ) : Except PyErr (ℤ × ℤ) :=
  let s := now - pyWeekday now
  .ok (s - 7, s - 1)

/-- `TimeParser._get_next_week`. -/
def getNextWeek (now : ℤ) : Except PyErr (ℤ × ℤ) :=
  let s := now - pyWeekday now
  .ok (s + 7, s + 13)

/-- `TimeParser._get_this_month`. -/
def getThisMonth (now : ℤ) : Except PyErr (ℤ × ℤ) := do
  let c := ordToCivil now
  let start ← pyDate c.1 c.2.1 1
  if c.2.1 = 12 then
    let nm ← pyDate (c.1 + 1) 1 1
    return (start, nm - 1)
  else
    let nm ← pyDate c.1 (c.2.1 + 1) 1
    return (start, nm - 1)

/-- `TimeParser._get_last_month`. -/
def getLastMonth (now : ℤ) : Except PyErr (ℤ × ℤ) := do
  let c := ordToCivil now
  let lastMonth ← if c.2.1 = 1 then pyDate (c.1 - 1) 12 1 else pyDate c.1 (c.2.1 - 1) 1
  let thisFirst ← pyDate c.1 c.2.1 1
  return (lastMonth, thisFirst - 1)

/-- `TimeParser._get_next_month`. -/
def getNextMonth (now : ℤ) : Except PyErr (ℤ × ℤ) := do
  let c := ordToCivil now
  let nextMonth ← if c.2.1 = 12 then pyDate (c.1 + 1) 1 1 else pyDate c.1 (c.2.1 + 1) 1
  let n := ordToCivil nextMonth
  if n.2.1 = 12 then
    let nn ← pyDate (n.1 + 1) 1 1
    return (nextMonth, nn - 1)
  else
    let nn ← pyDate n.1 (n.2.1 + 1) 1
    return (nextMonth, nn - 1)

/-- `TimeParser._get_this_year`. -/
def getThisYear (now : ℤ) : Except PyErr (ℤ × ℤ) := do
  let c := ordToCivil now
  let s ← pyDate c.1 1 1
  let e ← pyDate c.1 12 31
  return (s, e)

/-- `TimeParser._get_last_year`. -/
def getLastYear (now : ℤ) : Except PyErr (ℤ × ℤ) := do
  let c := ordToCivil now
  let s ← pyDate (c.1 - 1) 1 1
  let e ← pyDate (c.1 - 1) 12 31
  return (s, e)

/-- `TimeParser._get_next_year`. -/
def getNextYear (now : ℤ) : Except PyErr (ℤ × ℤ) := do
  let c := ordToCivil now
  let s ← pyDate (c.1 + 1) 1 1
  let e ← pyDate (c.1 + 1) 12 31
  return (s, e)

/-- `TimeParser._get_recent_days`. -/
def getRecentDays (now : ℤ) (n : ℕ) : Except PyErr (ℤ × ℤ) := .ok (now - n, now)

/-- `TimeParser._get_last_days` (excluding today). -/
def getLastDays (now : ℤ) (n : ℕ) : Except PyErr (ℤ × ℤ) :=
  .ok (now - 1 - ((n : ℤ) - 1), now - 1)

/-- `TimeParser._get_recent_weeks`: `timedelta(weeks=weeks * 7)` is
`49 * n` days, exactly as the source computes it. -/
def getRecentWeeks (now : ℤ) (n : ℕ) : Except PyErr (ℤ × ℤ) :=
  .ok (now - 7 * (7 * (n : ℤ)), now)

/-- `TimeParser._get_last_weeks` (same `weeks=weeks * 7` quirk). -/
def getLastWeeks (now : ℤ) (n : ℕ) : Except PyErr (ℤ × ℤ) :=
  .ok (now - 7 - 7 * (7 * (n : ℤ)), now - 7)

/-- One `start_date.replace(month=month-1)` step of
`TimeParser._get_recent_months`, keeping the day (which can raise, e.g.
March 31 → February 31). -/
def stepBackMonthKeepDay (d : ℤ) : Except PyErr ℤ :=
  let c := ordToCivil d
  if c.2.1 = 1 then pyDate (c.1 - 1) 12 c.2.2 else pyDate c.1 (c.2.1 - 1) c.2.2

/-- One day-1 month step of `TimeParser._get_last_months`. -/
def stepBackMonthDay1 (d : ℤ) : Except PyErr ℤ :=
  let c := ordToCivil d
  if c.2.1 = 1 then pyDate (c.1 - 1) 12 1 else pyDate c.1 (c.2.1 - 1) 1

/-- `for _ in range(n): ...` iteration of a fallible step. -/
def iterStepBack (f : ℤ → Except PyErr ℤ) : ℕ → ℤ → Except PyErr ℤ
  | 0, d => .ok d
  | n + 1, d => (f d).bind (iterStepBack f n)

/-- `TimeParser._get_recent_months`. -/
def getRecentMonths (now : ℤ) (n : ℕ) : Except PyErr (ℤ × ℤ) :=
  (iterStepBack stepBackMonthKeepDay n now).map (fun s => (s, now))

/-- `TimeParser._get_last_months` (range(months - 1) steps; with `months = 0`
Python's `range(-1)` is empty, matching ℕ subtraction). -/
def getLastMonths (now : ℤ) (n : ℕ) : Except PyErr (ℤ × ℤ) := do
  let c := ordToCivil now
  let firstThis ← pyDate c.1 c.2.1 1
  let e := firstThis - 1
  let s ← iterStepBack stepBackMonthDay1 (n - 1) e
  let cs := ordToCivil s
  let s1 ← pyDate cs.1 cs.2.1 1
  return (s1, e)

/-- `TimeParser._get_recent_years` (`end_date.replace(year=year - n)`, which
can raise on Feb 29). -/
def getRecentYears (now : ℤ) (n : ℕ) : Except PyErr (ℤ × ℤ) := do
  let c := ordToCivil now
  let s ← pyDate (c.1 - n) c.2.1 c.2.2
  return (s, now)

/-- Case-insensitive literal prefix test (ASCII case folding, `re.IGNORECASE`). -/
def lcIsPrefixOf : List Char → List Char → Bool
  | [], _ => true
  | _ :: _, [] => false
  | a :: as, b :: bs => (a.toLower = b.toLower) && lcIsPrefixOf as bs

/-- Try each alternative of a literal alternation at the current position, in
pattern order; return the matched slice of the original text. -/
def litTry (alts : List (List Char)) (s : List Char) : Option (List Char) :=
  alts.findSome? fun a => if lcIsPrefixOf a s then some (s.take a.length) else none

/-- `re.search` of a literal alternation: earliest position wins, listed
order at equal positions; returns `match.group(0)`. -/
def searchLit (alts : List (List Char)) : List Char → Option (List Char)
  | [] => none
  | c :: rest =>
    match litTry alts (c :: rest) with
    | some m => some m
    | none => searchLit alts rest

/-- Leading digit run (`\d+`, greedy). -/
def takeDigits : List Char → List Char × List Char
  | [] => ([], [])
  | c :: rest =>
    if c.isDigit then
      let p := takeDigits rest
      (c :: p.1, p.2)
    else ([], c :: rest)

/-- Decimal value of a digit run (`int(...)`). -/
def digitsToNat (ds : List Char) : ℕ := ds.foldl (fun n c => 10 * n + (c.toNat - 48)) 0

/-- Try `pre(\d+)(suffix-alternation)` at the current position: literal
prefix, one-or-more digits (greedy; no backtracking is possible because no
suffix starts with a digit), then a suffix alternative.  Returns
(`group(0)`, `int(group(1))`). -/
def numTryAt (pre : List Char) (sufAlts : List (List Char)) (s : List Char) :
    Option (List Char × ℕ) :=
  if lcIsPrefixOf pre s then
    let after := s.drop pre.length
    let p := takeDigits after
    if p.1 = [] then none
    else
      match sufAlts.findSome?
        (fun a => if lcIsPrefixOf a p.2 then some (p.2.take a.length) else none) with
      | some suf => some (s.take pre.length ++ p.1 ++ suf, digitsToNat p.1)
      | none => none
  else none

/-- `re.search` of a `pre(\d+)suffix` pattern. -/
def searchNum (pre : List Char) (sufAlts : List (List Char)) :
    List Char → Option (List Char × ℕ)
  | [] => none
  | c :: rest =>
    match numTryAt pre sufAlts (c :: rest) with
    | some m => some m
    | none => searchNum pre sufAlts rest

/-- One entry of `self.time_patterns['relative'][lang]`: a literal
alternation or a `pre(\d+)suffix` pattern, with its date-range handler. -/
inductive RelPattern where
  | lit (alts : List String) (h : ℤ → Except PyErr (ℤ × ℤ))
  | numPat (pre : String) (sufAlts : List String) (h : ℤ → ℕ → Except PyErr (ℤ × ℤ))

/-- `self.time_patterns['relative']['zh']`, in source order. -/
def zhRelPatterns : List RelPattern :=
  [.lit ["今天"] (fun now => .ok (now, now)),
   .lit ["昨天"] (fun now => .ok (now - 1, now - 1)),
   .lit ["前天"] (fun now => .ok (now - 2, now - 2)),
   .lit ["明天"] (fun now => .ok (now + 1, now + 1)),
   .lit ["后天"] (fun now => .ok (now + 2, now + 2)),
   .lit ["本周", "这周"] getThisWeek,
   .lit ["上周"] getLastWeek,
   .lit ["下周"] getNextWeek,
   .lit ["本月", "这个月"] getThisMonth,
   .lit ["上月", "上个月"] getLastMonth,
   .lit ["下月", "下个月"] getNextMonth,
   .lit ["今年", "这一年"] getThisYear,
   .lit ["去年", "上一年"] getLastYear,
   .lit ["明年", "下一年"] getNextYear,
   .numPat "最近" ["天", "日"] getRecentDays,
   .numPat "最近" ["周"] getRecentWeeks,
   .numPat "最近" ["月"] getRecentMonths,
   .numPat "最近" ["年"] getRecentYears,
   .numPat "过去" ["天", "日"] getRecentDays,
   .numPat "过去" ["周"] getRecentWeeks,
   .numPat "过去" ["月"] getRecentMonths]

/-- `self.time_patterns['relative']['en']`, in source order (`days?` is the
greedy optional-s: try the longer suffix first). -/
def enRelPatterns : List RelPattern :=
  [.lit ["today"] (fun now => .ok (now, now)),
   .lit ["yesterday"] (fun now => .ok (now - 1, now - 1)),
   .lit ["tomorrow"] (fun now => .ok (now + 1, now + 1)),
   .lit ["this week"] getThisWeek,
   .lit ["last week"] getLastWeek,
   .lit ["next week"] getNextWeek,
   .lit ["this month"] getThisMonth,
   .lit ["last month"] getLastMonth,
   .lit ["next month"] getNextMonth,
   .lit ["this year"] getThisYear,
   .lit ["last year"] getLastYear,
   .lit ["next year"] getNextYear,
   .numPat "recent " [" days", " day"] getRecentDays,
   .numPat "recent " [" weeks", " week"] getRecentWeeks,
   .numPat "recent " [" months", " month"] getRecentMonths,
   .numPat "recent " [" years", " year"] getRecentYears,
   .numPat "past " [" days", " day"] getRecentDays,
   .numPat "past " [" weeks", " week"] getRecentWeeks,
   .numPat "past " [" months", " month"] getRecentMonths,
   .numPat "last " [" days", " day"] getLastDays,
   .numPat "last " [" weeks", " week"] getLastWeeks,
   .numPat "last " [" months", " month"] getLastMonths]

/-- Search one relative pattern in the query; on a match, produce the
handler outcome and `match.group(0)`. -/
def tryRelPattern (p : RelPattern) (q : List Char) (now : ℤ) :
    Option (Except PyErr (ℤ × ℤ) × List Char) :=
  match p with
  | .lit alts h => (searchLit (alts.map String.data) q).map (fun m => (h now, m))
  | .numPat pre suf h =>
    (searchNum pre.data (suf.map String.data) q).map (fun m => (h now m.2, m.1))

/-- The relative-pattern loop of `_rule_based_parsing`: first match wins
with confidence 0.9; a handler exception skips to the next pattern. -/
def scanRelPatterns (now : ℤ) (q : List Char) : List RelPattern → Option TimeRange
  | [] => none
  | p :: rest =>
    match tryRelPattern p q now with
    | none => scanRelPatterns now q rest
    | some (res, g0) =>
      match res with
      | .ok se => some ⟨se.1, se.2, some (String.mk g0), 9 / 10⟩
      | .error _ => scanRelPatterns now q rest

/-- `self.time_patterns['relative']` holds only `zh` and `en` tables. -/
def relTableFor (lang : String) : Option (List RelPattern) :=
  if lang = "zh" then some zhRelPatterns
  else if lang = "en" then some enRelPatterns
  else none

/-- `for lang in [language, 'zh', 'en']`: scan each present table until a
pattern matches. -/
def scanRelForLangs (now : ℤ) (q : List Char) : List String → Option TimeRange
  | [] => none
  | lang :: rest =>
    match relTableFor lang with
    | some pats =>
      match scanRelPatterns now q pats with
      | some tr => some tr
      | none => scanRelForLangs now q rest
    | none => scanRelForLangs now q rest

/-- Take exactly `n` digits (`\d{n}`). -/
def digitsExact (n : ℕ) (s : List Char) : Option (List Char × List Char) :=
  let ds := s.take n
  if ds.length = n && ds.all Char.isDigit then some (ds, s.drop n) else none

/-- The candidate splits of `\d{1,2}` in greedy order: two digits first,
then one. -/
def digits12 (s : List Char) : List (List Char × List Char) :=
  match s with
  | a :: b :: r =>
    if a.isDigit && b.isDigit then [([a, b], r), ([a], b :: r)]
    else if a.isDigit then [([a], b :: r)] else []
  | [a] => if a.isDigit then [([a], [])] else []
  | [] => []

/-- Match a literal at the current position, returning the remainder. -/
def litAt (lit : List Char) (s : List Char) : Option (List Char) :=
  if lcIsPrefixOf lit s then some (s.drop lit.length) else none

/-- `(\d{4})sep1(\d{1,2})sep2(\d{1,2})sep3` at the current position
(`sep3` may be empty); returns the three groups and the match length,
backtracking over the `\d{1,2}` widths. -/
def shapeYmdAt (sep1 sep2 sep3 : List Char) (s : List Char) :
    Option (List Char × List Char × List Char × ℕ) :=
  match digitsExact 4 s with
  | none => none
  | some (y, r1) =>
    match litAt sep1 r1 with
    | none => none
    | some r2 =>
      (digits12 r2).findSome? fun mm =>
        match litAt sep2 mm.2 with
        | none => none
        | some r4 =>
          (digits12 r4).findSome? fun dd =>
            match litAt sep3 dd.2 with
            | none => none
            | some _ =>
              some (y, mm.1, dd.1,
                4 + sep1.length + mm.1.length + sep2.length + dd.1.length + sep3.length)

/-- `(\d{1,2})sep(\d{1,2})sep(\d{4})` at the current position. -/
def shapeDmyAt (sep : List Char) (s : List Char) :
    Option (List Char × List Char × List Char × ℕ) :=
  (digits12 s).findSome? fun dd =>
    match litAt sep dd.2 with
    | none => none
    | some r2 =>
      (digits12 r2).findSome? fun mm =>
        match litAt sep mm.2 with
        | none => none
        | some r4 =>
          match digitsExact 4 r4 with
          | none => none
          | some (y, _) =>
            some (dd.1, mm.1, y, dd.1.length + sep.length + mm.1.length + sep.length + 4)

/-- `(Name|...) (\d{1,2}),? (\d{4})` at the current position; `,?` is
greedy (comma first, then empty). -/
def shapeMnyAt (names : List (List Char)) (s : List Char) :
    Option (List Char × List Char × List Char × ℕ) :=
  names.findSome? fun nm =>
    if lcIsPrefixOf nm s then
      let r1 := s.drop nm.length
      match litAt [' '] r1 with
      | none => none
      | some r2 =>
        (digits12 r2).findSome? fun dd =>
          let tryTail := fun (r : List Char) (commaLen : ℕ) =>
            match litAt [' '] r with
            | none => none
            | some r' =>
              match digitsExact 4 r' with
              | none => none
              | some (y, _) =>
                some (s.take nm.length, dd.1, y,
                  nm.length + 1 + dd.1.length + commaLen + 1 + 4)
          match litAt [','] dd.2 with
          | some rc =>
            match tryTail rc 1 with
            | some out => some out
            | none => tryTail dd.2 0
          | none => tryTail dd.2 0
    else none

/-- One entry of `self.time_patterns['absolute']`. -/
inductive AbsPattern where
  | ymd (sep1 sep2 sep3 : String)
  | dmy (sep : String)
  | mny (names : List String)

/-- `self.time_patterns['absolute']`, in source order (note the repeated
`YYYY-MM-DD` pattern). -/
def absPatterns : List AbsPattern :=
  [.ymd "年" "月" "日",
   .ymd "-" "-" "",
   .ymd "/" "/" "",
   .dmy "/",
   .dmy "-",
   .ymd "-" "-" "",
   .mny ["January", "February", "March", "April", "May", "June", "July", "August",
         "September", "October", "November", "December"],
   .mny ["Jan", "Feb", "Mar", "Apr", "May", "Jun", "Jul", "Aug", "Sep", "Oct", "Nov", "Dec"]]

/-- Match an absolute pattern at the current position. -/
def absTryAt (p : AbsPattern) (s : List Char) :
    Option (List Char × List Char × List Char × ℕ) :=
  match p with
  | .ymd s1 s2 s3 => shapeYmdAt s1.data s2.data s3.data s
  | .dmy sep => shapeDmyAt sep.data s
  | .mny names => shapeMnyAt (names.map String.data) s

/-- `re.search` of an absolute pattern: earliest match; returns
(`group(0)`, `group(1)`, `group(2)`, `group(3)`). -/
def searchAbs (p : AbsPattern) : List Char → Option (List Char × List Char × List Char × List Char)
  | [] => none
  | c :: rest =>
    match absTryAt p (c :: rest) with
    | some (g1, g2, g3, len) => some ((c :: rest).take len, g1, g2, g3)
    | none => searchAbs p rest

/-- Python `int(...)` on a regex group: the digits value, `ValueError`
(modelled as `none`) otherwise. -/
def pyIntOfGroup (s : List Char) : Option ℕ :=
  if s ≠ [] && s.all Char.isDigit then some (digitsToNat s) else none

/-- `self.month_names`. -/
def monthNames : List (String × ℕ) :=
  [("january", 1), ("february", 2), ("march", 3), ("april", 4), ("may", 5), ("june", 6),
   ("july", 7), ("august", 8), ("september", 9), ("october", 10), ("november", 11),
   ("december", 12),
   ("jan", 1), ("feb", 2), ("mar", 3), ("apr", 4), ("jun", 6),
   ("jul", 7), ("aug", 8), ("sep", 9), ("oct", 10), ("nov", 11), ("dec", 12)]

/-- `TimeParser._parse_absolute_date` (lines 266–304): year-first when the
first group has 4 characters, else day-first when the third group has 4
characters (month name looked up, falling back to `int`, whose failure —
like any `ValueError`, including date validation — yields no date). -/
def parseAbsoluteDate (g1 g2 g3 : List Char) : Option ℤ :=
  if g1.length = 4 then
    match pyIntOfGroup g1, pyIntOfGroup g2, pyIntOfGroup g3 with
    | some y, some m, some d => (pyDate y m d).toOption
    | _, _, _ => none
  else if g3.length = 4 then
    match pyIntOfGroup g1, pyIntOfGroup g3 with
    | some d, some y =>
      let lower := String.mk (g2.map Char.toLower)
      let m? := match (monthNames.find? (fun p => p.1 = lower)).map (fun p => p.2) with
        | some m => some m
        | none => pyIntOfGroup g2
      match m? with
      | some m => (pyDate y m d).toOption
      | none => none
    | _, _ => none
  else none

/-- The absolute-pattern loop of `_rule_based_parsing`: first pattern whose
match parses to a (truthy) date wins, with confidence 0.95. -/
def scanAbsPatterns (q : List Char) : List AbsPattern → Option TimeRange
  | [] => none
  | p :: rest =>
    match searchAbs p q with
    | none => scanAbsPatterns q rest
    | some (g0, g1, g2, g3) =>
      match parseAbsoluteDate g1 g2 g3 with
      | some d => some ⟨d, d, some (String.mk g0), 95 / 100⟩
      | none => scanAbsPatterns q rest

/-- `TimeParser._rule_based_parsing` (lines 148–200): relative patterns over
`[language, 'zh', 'en']`, then absolute patterns. -/
def ruleBasedParsing (query : String) (language : String) (now : ℤ) : Option TimeRange :=
  match scanRelForLangs now query.data [language, "zh", "en"] with
  | some tr => some tr
  | none => scanAbsPatterns query.data absPatterns

/-- `TimeParser._detect_language`: Chinese-character share above 0.3. -/
def timeDetectLanguage (q : String) : String :=
  let total := (q.data.filter (fun c => c ≠ ' ' ∧ c ≠ '\n')).length
  if total = 0 then "en"
  else
    let zh := (q.data.filter (fun c => 0x4E00 ≤ c.toNat && c.toNat ≤ 0x9FFF)).length
    if (3 : ℚ) / 10 < (zh : ℚ) / (total : ℚ) then "zh" else "en"

/-- `TimeParser.parse_time_expression` (lines 114–146): rule-based parsing
first; only when it yields nothing is the capability (abstracted as the
outcome `llm` of `_llm_parsing`) consulted — the returned flag records
whether that capability step was reached. -/
def parseTimeExpression (query : String) (language : Option String) (now : ℤ)
    (llm : Except PyErr (Option TimeRange)) : Option TimeRange × Bool :=
  let lang := match language with
    | some l => if l = "" then timeDetectLanguage query else l
    | none => timeDetectLanguage query
  match ruleBasedParsing query lang now with
  | some tr => (some tr, false)
  | none =>
    match llm with
    | .ok r => (r, true)
    | .error _ => (none, true)

/-! ## Query expander

Embedding of `QueryExpander`
(`backend/services/llm/query_processors/query_expander.py`).  The method
`_dictionary_expansion` (lines 150–199) builds its expansion lists and then
executes `if include_translations and language in ['zh', 'mixed']:` — but
`include_translations` is a parameter of `expand_query`, not of
`_dictionary_expansion`, and no global of that name exists, so evaluating
the name raises `NameError` unconditionally (the preceding loops are pure
dict/list operations and cannot raise).  `expand_query` calls
`_dictionary_expansion` at line 137 outside any `try`, so the exception
propagates out of `expand_query`; everything after that call is dead code
and is modelled as an arbitrary continuation. -/

/-- `re.findall(r'\b\w+\b', query_lower)`: the maximal word-character runs. -/
def wordRunsAux : List Char → List Char → List (List Char)
  | [], acc => if acc = [] then [] else [acc.reverse]
  | c :: rest, acc =>
    if isWordChar c then wordRunsAux rest (c :: acc)
    else if acc = [] then wordRunsAux rest [] else acc.reverse :: wordRunsAux rest []

def wordRuns (l : List Char) : List (List Char) := wordRunsAux l []

/-- `self.synonym_dict['zh']` (insertion order). -/
def zhSynonyms : List (String × List String) :=
  [("文档", ["文件", "资料", "材料", "文本", "paper", "document"]),
   ("文件", ["文档", "档案", "资料", "file", "document"]),
   ("图片", ["图像", "照片", "截图", "画", "image", "picture", "photo"]),
   ("照片", ["图片", "相片", "snapshot", "photo", "picture"]),
   ("视频", ["影片", "录像", "video", "movie", "clip"]),
   ("音频", ["音乐", "声音", "录音", "audio", "sound", "music"]),
   ("搜索", ["查找", "寻找", "检索", "search", "find", "lookup"]),
   ("查找", ["搜索", "寻找", "search", "find", "look for"]),
   ("报告", ["报表", "总结", "分析", "report", "summary"]),
   ("方案", ["计划", "建议", "提案", "proposal", "plan", "solution"]),
   ("合同", ["协议", "契约", "agreement", "contract"]),
   ("产品", ["商品", "物品", "product", "item", "goods"]),
   ("设计", ["规划", "布局", "design", "plan", "layout"]),
   ("项目", ["计划", "工程", "project", "plan", "program"]),
   ("数据", ["信息", "资料", "data", "information"]),
   ("系统", ["平台", "框架", "system", "platform", "framework"]),
   ("软件", ["应用", "程序", "software", "application", "app"]),
   ("会议", ["讨论", "研讨", "meeting", "conference", "discussion"]),
   ("培训", ["学习", "教学", "training", "learning", "education"]),
   ("教程", ["指南", "手册", "tutorial", "guide", "manual"]),
   ("工具", ["用具", "软件", "tool", "utility", "software"])]

/-- `self.synonym_dict['en']`. -/
def enSynonyms : List (String × List String) :=
  [("document", ["file", "paper", "text", "doc", "report"]),
   ("file", ["document", "paper", "text", "record"]),
   ("image", ["picture", "photo", "graphic", "visual", "pic"]),
   ("picture", ["image", "photo", "graphic", "visual", "pic"]),
   ("video", ["movie", "film", "clip", "recording"]),
   ("audio", ["sound", "music", "recording", "voice"]),
   ("search", ["find", "lookup", "seek", "look for", "query"]),
   ("find", ["search", "locate", "discover", "look for"]),
   ("report", ["summary", "analysis", "document", "paper"]),
   ("plan", ["proposal", "scheme", "strategy", "design"]),
   ("project", ["program", "initiative", "venture", "plan"]),
   ("data", ["information", "stats", "figures", "records"]),
   ("system", ["platform", "framework", "software", "application"]),
   ("software", ["application", "app", "program", "tool"]),
   ("meeting", ["conference", "discussion", "session", "gathering"]),
   ("tutorial", ["guide", "manual", "instructions", "howto"]),
   ("tool", ["utility", "application", "software", "instrument"])]

/-- `self.related_terms`. -/
def zhRelated : List (String × List String) :=
  [("设计", ["创意", "原型", "界面", "用户体验", "UI", "UX"]),
   ("开发", ["编程", "代码", "测试", "部署", "维护"]),
   ("分析", ["统计", "评估", "报告", "研究", "调研"]),
   ("管理", ["组织", "计划", "协调", "监督", "控制"]),
   ("学习", ["教育", "培训", "课程", "知识", "技能"])]

def enRelated : List (String × List String) :=
  [("design", ["creative", "prototype", "interface", "user experience", "UI", "UX"]),
   ("development", ["programming", "coding", "testing", "deployment", "maintenance"]),
   ("analysis", ["statistics", "evaluation", "research", "study", "assessment"]),
   ("management", ["organization", "planning", "coordination", "supervision"]),
   ("learning", ["education", "training", "course", "knowledge", "skill"])]

/-- `self.file_type_expansions`. -/
def fileTypeExpansions : List (String × List String) :=
  [("ppt", ["powerpoint", "presentation", "slide", "演示文稿", "幻灯片"]),
   ("pdf", ["portable document", "adobe pdf", "acrobat", "文档"]),
   ("doc", ["word", "microsoft word", "document", "文档"]),
   ("xls", ["excel", "spreadsheet", "电子表格", "工作表"]),
   ("jpg", ["jpeg", "image", "photo", "picture", "图片", "照片"]),
   ("mp3", ["audio", "music", "sound", "音乐", "音频"]),
   ("mp4", ["video", "movie", "film", "视频", "影片"])]

/-- `self.synonym_dict.get(lang, {})` lookup of one word. -/
def synLookup (lang : String) (w : String) : Option (List String) :=
  let d := if lang = "zh" then zhSynonyms else if lang = "en" then enSynonyms else []
  (d.find? (fun p => p.1 = w)).map (fun p => p.2)

/-- `self.related_terms.get(lang, {})` lookup of one word. -/
def relatedLookup (lang : String) (w : String) : Option (List String) :=
  let d := if lang = "zh" then zhRelated else if lang = "en" then enRelated else []
  (d.find? (fun p => p.1 = w)).map (fun p => p.2)

/-- Python `needle in hay` substring containment. -/
def strContains (needle : List Char) : List Char → Bool
  | [] => needle.isEmpty
  | c :: rest => needle.isPrefixOf (c :: rest) || strContains needle rest

/-- The expansion lists built by `_dictionary_expansion` before line 196
(the `translations` list is initialized empty and never reached). -/
structure Expansions where
  synonyms : List String
  related_terms : List String
  file_types : List String
  translations : List String
deriving DecidableEq, Repr

/-- `[s for s in new if s.lower() != word.lower() and s not in acc]`
appended to `acc`. -/
def extendFiltered (word : String) (new : List String) (acc : List String) : List String :=
  acc ++ new.filter (fun s => pyLower s ≠ pyLower word ∧ s ∉ acc)

/-- One `for lang in [language, 'zh', 'en']` step of the synonym loop. -/
def synStep (word lang : String) (acc : Expansions) : Expansions :=
  let acc1 := match synLookup lang word with
    | some syns => { acc with synonyms := extendFiltered word syns acc.synonyms }
    | none => acc
  match relatedLookup lang word with
  | some rel => { acc1 with related_terms := extendFiltered word rel acc1.related_terms }
  | none => acc1

/-- The pure part of `_dictionary_expansion` (lines 161–193): synonym and
related-term accumulation over the query's words, then file-type
expansions. -/
def dictionaryExpansionParts (query : String) (language : String) : Expansions :=
  let query_lower := pyLower query
  let words := (wordRuns query_lower.data).map String.mk
  let base := words.foldl
    (fun acc w => ([language, "zh", "en"]).foldl (fun a lang => synStep w lang a) acc)
    ⟨[], [], [], []⟩
  fileTypeExpansions.foldl
    (fun acc p =>
      if strContains p.1.data query_lower.data then
        { acc with file_types := acc.file_types ++ p.2 }
      else acc)
    base

/-- `QueryExpander._dictionary_expansion`: after the pure accumulation, line
196 evaluates the free name `include_translations` and raises `NameError`
on every call. -/
def dictionaryExpansion (query : String) (language : String) : Except PyErr Expansions :=
  let _ := dictionaryExpansionParts query language
  .error (.nameError "include_translations")

/-- `QueryExpander._detect_language` (zh / en / mixed variant). -/
def expDetectLanguage (q : String) : String :=
  let total := (q.data.filter (fun c => c ≠ ' ' ∧ c ≠ '\n')).length
  if total = 0 then "en"
  else
    let zh := (q.data.filter (fun c => 0x4E00 ≤ c.toNat && c.toNat ≤ 0x9FFF)).length
    if (3 : ℚ) / 10 < (zh : ℚ) / (total : ℚ) then "zh"
    else if (zh : ℚ) / (total : ℚ) < 1 / 10 then "en"
    else "mixed"

/-- `QueryExpander.expand_query` (lines 111–148): detect the language when
none is given, call `_dictionary_expansion` (outside any `try`), then
continue with LLM / final expansion — everything after the call is
unreachable because of the `NameError` and is modelled by an arbitrary
continuation `rest`. -/
def expandQuery {α : Type} (rest : Expansions → Except PyErr α)
    (query : String) (language : Option String) : Except PyErr α :=
  let lang := match language with
    | some l => if l = "" then expDetectLanguage query else l
    | none => expDetectLanguage query
  (dictionaryExpansion query lang).bind rest

/-! ## Language detector

Embedding of `LanguageDetector`
(`backend/services/llm/query_processors/language_detector.py`).  The
detector is purely algorithmic.  Ratios are rationals.  The
`analysis_details` echo of the returned dict is not modelled (it merely
repeats the three analyses). -/

/-- Membership in `self.chinese_chars` (CJK Unified Ideographs,
U+4E00–U+9FFF). -/
def isChineseSetChar (c : Char) : Bool := 0x4E00 ≤ c.toNat && c.toNat ≤ 0x9FFF

/-- The regex class `[一-龯]` (U+4E00–U+9FAF) used for word chunks and mixed
patterns. -/
def isZhRegexChar (c : Char) : Bool := 0x4E00 ≤ c.toNat && c.toNat ≤ 0x9FAF

/-- Membership in `self.english_chars` (ASCII letters). -/
def isEnglishChar (c : Char) : Bool := c.isAlpha

/-- Membership in `self.common_punctuation` (given by codepoint: the ASCII
punctuation of the source string plus the fullwidth variants). -/
def isCommonPunct (c : Char) : Bool :=
  [0x2e, 0x2c, 0x3b, 0x3a, 0x21, 0x3f, 0x28, 0x29, 0x5b, 0x5d, 0x7b, 0x7d, 0x22, 0x27,
   0xff0c, 0x3002, 0xff1b, 0xff1a, 0xff01, 0xff1f, 0xff08, 0xff09, 0x3010,
   0x3011].contains c.toNat

/-- Maximal runs of characters satisfying `p` (the `findall` of `[cls]+`). -/
def runsOfAux (p : Char → Bool) : List Char → List Char → List (List Char)
  | [], acc => if acc = [] then [] else [acc.reverse]
  | c :: rest, acc =>
    if p c then runsOfAux p rest (c :: acc)
    else if acc = [] then runsOfAux p rest [] else acc.reverse :: runsOfAux p rest []

def runsOf (p : Char → Bool) (l : List Char) : List (List Char) := runsOfAux p l []

/-- `LanguageDetector._character_analysis`.  When every character is a
space/newline/tab the source returns a dict without the ratio keys; that
case is unreachable from `detect_language` (the whitespace guard returns
first), and the model reports zero shares there. -/
structure CharAnalysis where
  chinese : ℕ
  english : ℕ
  other : ℕ
  total : ℕ
  zhShare : ℚ
  enShare : ℚ
  otherShare : ℚ
deriving DecidableEq, Repr

def characterAnalysis (text : List Char) : CharAnalysis :=
  let total := (text.filter (fun c => c ≠ ' ' ∧ c ≠ '\n' ∧ c ≠ '\t')).length
  if total = 0 then ⟨0, 0, 0, 0, 0, 0, 0⟩
  else
    let zh := (text.filter isChineseSetChar).length
    let en := (text.filter (fun c => !isChineseSetChar c && isEnglishChar c)).length
    let other := (text.filter (fun c => !isChineseSetChar c && !isEnglishChar c &&
      !isCommonPunct c && !c.isDigit && !pyIsSpace c)).length
    ⟨zh, en, other, total, (zh : ℚ) / total, (en : ℚ) / total, (other : ℚ) / total⟩

/-- `self.chinese_words`. -/
def chineseWords : List String :=
  ["的", "了", "在", "是", "我", "有", "和", "就", "不", "人", "都", "一", "个", "上", "也",
   "很", "到", "说", "要", "去", "你", "会", "着", "没有", "看", "好", "自己", "这", "那",
   "他", "她", "它", "我们", "你们", "他们", "她们", "它们", "这个", "那个", "这些", "那些",
   "什么", "怎么", "为什么"]

/-- `self.english_words`. -/
def englishWords : List String :=
  ["the", "be", "to", "of", "and", "a", "in", "that", "have", "i", "it", "for", "not", "on",
   "with", "he", "as", "you", "do", "at", "this", "but", "his", "by", "from", "they", "we",
   "say", "her", "she", "or", "an", "will", "my", "one", "all", "would", "there", "their",
   "what", "so", "up", "out", "if", "about", "who", "get", "which", "go", "me", "when",
   "make", "can", "like", "time", "no", "just", "him", "know", "take", "people", "into",
   "year", "your", "good", "some", "could", "them", "see", "other", "than", "then", "now",
   "look", "only", "come", "its", "over", "think", "also", "back"]

/-- `LanguageDetector._word_analysis`. -/
structure WordAnalysis where
  chinese_words : ℕ
  english_words : ℕ
  total_words : ℕ
  chinese_common : ℕ
  english_common : ℕ
  zhWordShare : ℚ
  enWordShare : ℚ
  zhCommonShare : ℚ
  enCommonShare : ℚ
deriving DecidableEq, Repr

def wordAnalysis (text : List Char) : WordAnalysis :=
  let zhChunks := runsOf isZhRegexChar text
  let enChunks := runsOf isEnglishChar text
  let zhCommon := (zhChunks.filter (fun w => String.mk w ∈ chineseWords)).length
  let enCommon := (enChunks.filter (fun w =>
    String.mk (w.map Char.toLower) ∈ englishWords)).length
  let tz := zhChunks.length
  let te := enChunks.length
  let tw := tz + te
  ⟨tz, te, tw, zhCommon, enCommon,
   (tz : ℚ) / (max tw 1 : ℕ), (te : ℚ) / (max tw 1 : ℕ),
   (zhCommon : ℚ) / (max tz 1 : ℕ), (enCommon : ℚ) / (max te 1 : ℕ)⟩

/-- Scanner counting `re.findall` matches of `first+ (\s*)? second+` (the
four mixed-language patterns): state 0 = scanning, 1 = inside a first-class
run, 2 = inside the optional whitespace, 3 = inside the matched second-class
run. -/
def countAdjAux (first second : Char → Bool) (allowSpace : Bool) :
    List Char → ℕ → ℕ → ℕ
  | [], _, n => n
  | c :: rest, st, n =>
    match st with
    | 0 => countAdjAux first second allowSpace rest (if first c then 1 else 0) n
    | 1 =>
      if first c then countAdjAux first second allowSpace rest 1 n
      else if allowSpace && pyIsSpace c then countAdjAux first second allowSpace rest 2 n
      else if second c then countAdjAux first second allowSpace rest 3 (n + 1)
      else countAdjAux first second allowSpace rest 0 n
    | 2 =>
      if pyIsSpace c then countAdjAux first second allowSpace rest 2 n
      else if second c then countAdjAux first second allowSpace rest 3 (n + 1)
      else if first c then countAdjAux first second allowSpace rest 1 n
      else countAdjAux first second allowSpace rest 0 n
    | _ =>
      if second c then countAdjAux first second allowSpace rest 3 n
      else if first c then countAdjAux first second allowSpace rest 1 n
      else countAdjAux first second allowSpace rest 0 n

def countAdj (first second : Char → Bool) (allowSpace : Bool) (l : List Char) : ℕ :=
  countAdjAux first second allowSpace l 0 0

/-- `LanguageDetector._mixed_language_detection`. -/
structure MixedAnalysis where
  mixed_matches : ℕ
  has_chinese_and_english : Bool
  has_mixed_words : Bool
  mixed_score : ℚ
  is_likely_mixed : Bool
deriving DecidableEq, Repr

def mixedDetection (text : List Char) : MixedAnalysis :=
  let mcount :=
    countAdj isEnglishChar isZhRegexChar true text +
    countAdj isZhRegexChar isEnglishChar true text +
    countAdj isEnglishChar isZhRegexChar false text +
    countAdj isZhRegexChar isEnglishChar false text
  let hasBoth := text.any isChineseSetChar && text.any isEnglishChar
  let hasMixedWords :=
    decide (0 < countAdj isEnglishChar isZhRegexChar false text +
      countAdj isZhRegexChar isEnglishChar false text)
  let chunks := (runsOf (fun c => !pyIsSpace c) text).length
  ⟨mcount, hasBoth, hasMixedWords,
   (mcount : ℚ) / (max chunks 1 : ℕ), decide (0 < mcount) || hasMixedWords⟩

/-- The dict returned by `detect_language` (without the `analysis_details`
echo). -/
structure LangDetectResult where
  primary_language : String
  confidence : ℚ
  language_distribution : List (String × ℚ)
  is_mixed : Bool
  detect_method : String
deriving DecidableEq, Repr

/-- `LanguageDetector._combine_analysis_results`. -/
def combineAnalysisResults (ca : CharAnalysis) (wa : WordAnalysis) (ma : MixedAnalysis) :
    LangDetectResult :=
  let is_mixed := ma.is_likely_mixed ||
    (decide ((1 : ℚ) / 5 < ca.zhShare) && decide ((1 : ℚ) / 5 < ca.enShare)) ||
    (decide ((1 : ℚ) / 5 < wa.zhWordShare) && decide ((1 : ℚ) / 5 < wa.enWordShare))
  let base :=
    if is_mixed then
      let zhScore := ca.zhShare * (3 / 5) + wa.zhWordShare * (3 / 10) +
        wa.zhCommonShare * (1 / 10)
      let enScore := ca.enShare * (3 / 5) + wa.enWordShare * (3 / 10) +
        wa.enCommonShare * (1 / 10)
      { primary_language := if enScore < zhScore then "zh" else "en"
        confidence := max zhScore enScore * (4 / 5)
        language_distribution := [("zh", zhScore), ("en", enScore), ("mixed", 1 / 5)]
        is_mixed := is_mixed
        detect_method := "" : LangDetectResult }
    else
      { primary_language := if ca.enShare < ca.zhShare then "zh" else "en"
        confidence := if ca.enShare < ca.zhShare then ca.zhShare else ca.enShare
        language_distribution := [("zh", ca.zhShare), ("en", ca.enShare)]
        is_mixed := is_mixed
        detect_method := "" }
  { base with
    confidence := min (max base.confidence 0) 1
    detect_method :=
      if 0 < wa.total_words then "word_and_character_based" else "character_based_only" }

/-- `LanguageDetector.detect_language` (lines 56–89): the
empty-or-whitespace guard returns the fixed "unknown" result; otherwise the
three analyses are combined.  The function is total — it cannot raise. -/
def detectLanguage (text : String) : LangDetectResult :=
  if text = "" ∨ pyStrip text = "" then
    ⟨"unknown", 0, [], false, "empty_input"⟩
  else
    combineAnalysisResults (characterAnalysis text.data) (wordAnalysis text.data)
      (mixedDetection text.data)

/-! ## Theorems -/

/-! ### Lemmas about the merge loops -/

theorem boostHit_id (h : SearchHit) : (boostHit h).id = h.id := rfl

theorem semPass_mem {s : List SearchHit} {seen : List String} {x : SearchHit}
    (hx : x ∈ semPass seen s) :
    x.id ∉ seen ∧ ∃ h, s.find? (fun r => r.id == x.id) = some h ∧ x = boostHit h := by
  induction s generalizing seen with
  | nil => simp [semPass] at hx
  | cons r rest ih =>
    simp only [semPass] at hx
    by_cases hr : r.id ∈ seen
    · rw [if_pos hr] at hx
      obtain ⟨hns, h, hfind, hexp⟩ := ih hx
      refine ⟨hns, h, ?_, hexp⟩
      have hne : (r.id == x.id) = false := by
        simp only [beq_eq_false_iff_ne]
        intro he; exact hns (he ▸ hr)
      simp [List.find?, hne, hfind]
    · rw [if_neg hr] at hx
      rcases List.mem_cons.mp hx with hx | hx
      · subst hx
        refine ⟨by simpa [boostHit_id] using hr, r, ?_, rfl⟩
        simp [List.find?, boostHit_id]
      · obtain ⟨hns, h, hfind, hexp⟩ := ih hx
        have hne : x.id ≠ r.id := fun he => hns (by simp [he])
        refine ⟨fun hc => hns (List.mem_cons_of_mem _ hc), h, ?_, hexp⟩
        have : (r.id == x.id) = false := by simpa [beq_eq_false_iff_ne] using fun he => hne he.symm
        simp [List.find?, this, hfind]

theorem semPass_ids_nodup (s : List SearchHit) (seen : List String) :
    ((semPass seen s).map SearchHit.id).Nodup := by
  induction s generalizing seen with
  | nil => simp [semPass]
  | cons r rest ih =>
    simp only [semPass]
    by_cases hr : r.id ∈ seen
    · rw [if_pos hr]; exact ih seen
    · rw [if_neg hr]
      simp only [List.map_cons, List.nodup_cons]
      refine ⟨?_, ih (r.id :: seen)⟩
      intro hmem
      obtain ⟨x, hx, hid⟩ := List.mem_map.mp hmem
      have := (semPass_mem hx).1
      rw [boostHit_id] at hid
      exact this (by simp [hid])

theorem fulPass_mem {s : List SearchHit} {seen : List String} {x : SearchHit}
    (hx : x ∈ fulPass seen s) : x ∈ s ∧ x.id ∉ seen := by
  induction s generalizing seen with
  | nil => simp [fulPass] at hx
  | cons r rest ih =>
    simp only [fulPass] at hx
    by_cases hr : r.id ∈ seen
    · rw [if_pos hr] at hx
      obtain ⟨h1, h2⟩ := ih hx
      exact ⟨List.mem_cons_of_mem _ h1, h2⟩
    · rw [if_neg hr] at hx
      rcases List.mem_cons.mp hx with hx | hx
      · exact ⟨hx ▸ List.mem_cons_self _ _, hx ▸ hr⟩
      · obtain ⟨h1, h2⟩ := ih hx
        exact ⟨List.mem_cons_of_mem _ h1, fun hc => h2 (List.mem_cons_of_mem _ hc)⟩

theorem fulPass_ids_nodup (s : List SearchHit) (seen : List String) :
    ((fulPass seen s).map SearchHit.id).Nodup := by
  induction s generalizing seen with
  | nil => simp [fulPass]
  | cons r rest ih =>
    simp only [fulPass]
    by_cases hr : r.id ∈ seen
    · rw [if_pos hr]; exact ih seen
    · rw [if_neg hr]
      simp only [List.map_cons, List.nodup_cons]
      refine ⟨?_, ih (r.id :: seen)⟩
      intro hmem
      obtain ⟨x, hx, hid⟩ := List.mem_map.mp hmem
      exact (fulPass_mem hx).2 (by simp [hid])

theorem mem_seenAfter_of_mem_seen {seen : List String} {a : String}
    (ha : a ∈ seen) (s : List SearchHit) : a ∈ seenAfter seen s := by
  induction s generalizing seen with
  | nil => simpa [seenAfter] using ha
  | cons r rest ih =>
    simp only [seenAfter]
    by_cases hr : r.id ∈ seen
    · rw [if_pos hr]; exact ih ha
    · rw [if_neg hr]; exact ih (List.mem_cons_of_mem _ ha)

theorem id_mem_seenAfter {s : List SearchHit} {h : SearchHit} (hh : h ∈ s)
    (seen : List String) : h.id ∈ seenAfter seen s := by
  induction s generalizing seen with
  | nil => simp at hh
  | cons r rest ih =>
    simp only [seenAfter]
    rcases List.mem_cons.mp hh with he | hm
    · subst he
      by_cases hr : h.id ∈ seen
      · rw [if_pos hr]; exact mem_seenAfter_of_mem_seen hr rest
      · rw [if_neg hr]
        exact mem_seenAfter_of_mem_seen (List.mem_cons_self _ _) rest
    · by_cases hr : r.id ∈ seen
      · rw [if_pos hr]; exact ih hm seen
      · rw [if_neg hr]; exact ih hm (r.id :: seen)

theorem insertDesc_perm (a : SearchHit) (l : List SearchHit) :
    (insertDesc a l).Perm (a :: l) := by
  induction l with
  | nil => simp [insertDesc]
  | cons b t ih =>
    simp only [insertDesc]
    by_cases h : a.relevance_score ≤ b.relevance_score
    · rw [if_pos h]
      exact (ih.cons b).trans (List.Perm.swap a b t)
    · rw [if_neg h]

theorem insertDesc_sorted {l : List SearchHit} (a : SearchHit)
    (hl : l.Sorted (fun x y => y.relevance_score ≤ x.relevance_score)) :
    (insertDesc a l).Sorted (fun x y => y.relevance_score ≤ x.relevance_score) := by
  induction l with
  | nil => simp [insertDesc]
  | cons b t ih =>
    simp only [insertDesc]
    rcases List.sorted_cons.mp hl with ⟨hb, ht⟩
    by_cases h : a.relevance_score ≤ b.relevance_score
    · rw [if_pos h]
      refine List.sorted_cons.mpr ⟨?_, ih ht⟩
      intro c hc
      rcases List.mem_cons.mp (((insertDesc_perm a t).mem_iff).mp hc) with hc | hc
      · exact hc ▸ h
      · exact hb c hc
    · rw [if_neg h]
      refine List.sorted_cons.mpr ⟨?_, hl⟩
      intro c hc
      rcases List.mem_cons.mp hc with hc | hc
      · exact hc ▸ le_of_not_le h
      · exact le_trans (hb c hc) (le_of_not_le h)

theorem pySortDesc_perm (l : List SearchHit) : (pySortDesc l).Perm l := by
  suffices h : ∀ (l acc : List SearchHit),
      (l.foldl (fun acc x => insertDesc x acc) acc).Perm (acc ++ l) by
    simpa using h l []
  intro l
  induction l with
  | nil => intro acc; simp
  | cons x t ih =>
    intro acc
    simp only [List.foldl_cons]
    refine (ih (insertDesc x acc)).trans ?_
    have h1 : (insertDesc x acc ++ t).Perm ((x :: acc) ++ t) :=
      (insertDesc_perm x acc).append_right t
    refine h1.trans ?_
    simp only [List.cons_append]
    exact (List.perm_middle).symm

theorem pySortDesc_sorted (l : List SearchHit) :
    (pySortDesc l).Sorted (fun x y => y.relevance_score ≤ x.relevance_score) := by
  suffices h : ∀ (l acc : List SearchHit),
      acc.Sorted (fun x y => y.relevance_score ≤ x.relevance_score) →
      (l.foldl (fun acc x => insertDesc x acc) acc).Sorted
        (fun x y => y.relevance_score ≤ x.relevance_score) by
    exact h l [] (by simp)
  intro l
  induction l with
  | nil => intro acc h; simpa using h
  | cons x t ih =>
    intro acc hacc
    simp only [List.foldl_cons]
    exact ih _ (insertDesc_sorted x hacc)

theorem merged_ids_nodup (sem ful : List SearchHit) :
    (((semPass [] sem ++ fulPass (seenAfter [] sem) ful)).map SearchHit.id).Nodup := by
  rw [List.map_append, List.nodup_append]
  refine ⟨semPass_ids_nodup sem [], fulPass_ids_nodup ful _, ?_⟩
  intro a ha hb
  obtain ⟨x, hx, hxa⟩ := List.mem_map.mp ha
  obtain ⟨y, hy, hya⟩ := List.mem_map.mp hb
  obtain ⟨-, h, hfind, hexp⟩ := semPass_mem hx
  have hhs : h ∈ sem := List.mem_of_find?_eq_some hfind
  have hid : h.id = x.id := by
    have := List.find?_some hfind
    simpa [beq_iff_eq] using this
  have : y.id ∈ seenAfter [] sem := by
    rw [hya, ← hxa, ← hid]
    exact id_mem_seenAfter hhs []
  exact (fulPass_mem hy).2 this

/-- Claim C2.  For every pair of semantic and fulltext result lists and every
limit, `_merge_search_results` returns a list in which (i) each document id
occurs at most once, (ii) every hit whose id occurs in the semantic list is
the first semantic hit with that id, boosted to `min(score * 1.2, 1.0)` and
marked "hybrid", (iii) every other hit is an unmodified fulltext hit,
(iv) the list is sorted by non-increasing relevance score, and (v) its length
is at most `limit`. -/
theorem merge_search_results_spec (sem ful : List SearchHit) (limit : ℕ) :
    ((mergeSearchResults sem ful limit).map SearchHit.id).Nodup ∧
    (∀ x ∈ mergeSearchResults sem ful limit,
      (x.id ∈ sem.map SearchHit.id →
        ∃ h, sem.find? (fun r => r.id == x.id) = some h ∧ x = boostHit h) ∧
      (x.id ∉ sem.map SearchHit.id → x ∈ ful)) ∧
    (mergeSearchResults sem ful limit).Sorted
      (fun a b => b.relevance_score ≤ a.relevance_score) ∧
    (mergeSearchResults sem ful limit).length ≤ limit := by
  set merged := semPass [] sem ++ fulPass (seenAfter [] sem) ful with hm
  have hperm : (pySortDesc merged).Perm merged := pySortDesc_perm merged
  have hsubl : List.Sublist (mergeSearchResults sem ful limit) (pySortDesc merged) := by
    simp only [mergeSearchResults, hm]
    exact List.take_sublist _ _
  refine ⟨?_, ?_, ?_, ?_⟩
  · have h1 : (merged.map SearchHit.id).Nodup := merged_ids_nodup sem ful
    have h2 : ((pySortDesc merged).map SearchHit.id).Nodup :=
      ((hperm.map SearchHit.id).nodup_iff).mpr h1
    exact h2.sublist (hsubl.map SearchHit.id)
  · intro x hx
    have hx' : x ∈ merged := hperm.mem_iff.mp (hsubl.mem hx)
    rcases List.mem_append.mp hx' with hx' | hx'
    · obtain ⟨-, h, hfind, hexp⟩ := semPass_mem hx'
      constructor
      · intro _; exact ⟨h, hfind, hexp⟩
      · intro hnot
        exfalso
        have hhs : h ∈ sem := List.mem_of_find?_eq_some hfind
        have hid : h.id = x.id := by
          have := List.find?_some hfind
          simpa [beq_iff_eq] using this
        exact hnot (hid ▸ List.mem_map_of_mem SearchHit.id hhs)
    · obtain ⟨hmem, hns⟩ := fulPass_mem hx'
      constructor
      · intro hin
        exfalso
        obtain ⟨h, hh, hid⟩ := List.mem_map.mp hin
        exact hns (hid ▸ id_mem_seenAfter hh [])
      · intro _; exact hmem
  · exact (pySortDesc_sorted merged).sublist hsubl
  · simp only [mergeSearchResults, hm]
    exact List.length_take_le _ _

/-- Witness for `merge_search_results_spec` at concrete inputs: one overlapping
id (kept once with the boosted semantic score), one fulltext-only id. -/
theorem merge_search_results_spec_witness :
    ((mergeSearchResults [⟨"a", 1 / 2, "semantic"⟩, ⟨"b", 9 / 10, "semantic"⟩]
        [⟨"a", 7 / 10, "fulltext"⟩, ⟨"c", 3 / 10, "fulltext"⟩] 10).map SearchHit.id).Nodup ∧
    (∃ h, List.find? (fun r => r.id == "a")
        [(⟨"a", 1 / 2, "semantic"⟩ : SearchHit), ⟨"b", 9 / 10, "semantic"⟩] = some h ∧
      (⟨"a", 3 / 5, "hybrid"⟩ : SearchHit) = boostHit h) := by
  have h := merge_search_results_spec
    [⟨"a", 1 / 2, "semantic"⟩, ⟨"b", 9 / 10, "semantic"⟩]
    [⟨"a", 7 / 10, "fulltext"⟩, ⟨"c", 3 / 10, "fulltext"⟩] 10
  have hmem : (⟨"a", 3 / 5, "hybrid"⟩ : SearchHit) ∈
      mergeSearchResults [⟨"a", 1 / 2, "semantic"⟩, ⟨"b", 9 / 10, "semantic"⟩]
        [⟨"a", 7 / 10, "fulltext"⟩, ⟨"c", 3 / 10, "fulltext"⟩] 10 := by
    have e1 : ("b" : String) ≠ "a" := by decide
    have e2 : ("c" : String) ≠ "a" := by decide
    have e3 : ("c" : String) ≠ "b" := by decide
    norm_num [mergeSearchResults, semPass, fulPass, seenAfter, boostHit, pySortDesc,
      insertDesc, e1, e2, e3, List.mem_cons]
  refine ⟨h.1, ?_⟩
  have := (h.2.1 _ hmem).1 (by norm_num)
  simpa using this

/-! ### Lemmas about the adapter -/

theorem dictSet_length_le (k : CacheKey) (v : LLMResponse × ℤ) (c : ResponseCache) :
    (dictSet k v c).length ≤ c.length + 1 := by
  induction c with
  | nil => simp [dictSet]
  | cons e rest ih =>
    simp only [dictSet]
    by_cases h : e.1 = k
    · rw [if_pos h]; simp
    · rw [if_neg h]
      simpa using Nat.succ_le_succ ih

theorem foldl_oldest_origin (l : List (CacheKey × LLMResponse × ℤ))
    (init : CacheKey × ℤ) :
    l.foldl (fun best f => if f.2.2 < best.2 then (f.1, f.2.2) else best) init = init ∨
    ∃ x ∈ l, l.foldl (fun best f => if f.2.2 < best.2 then (f.1, f.2.2) else best) init =
      (x.1, x.2.2) := by
  induction l generalizing init with
  | nil => left; rfl
  | cons e rest ih =>
    simp only [List.foldl_cons]
    by_cases h : e.2.2 < init.2
    · rw [if_pos h]
      rcases ih (e.1, e.2.2) with h' | ⟨x, hx, h'⟩
      · right; exact ⟨e, List.mem_cons_self _ _, h'⟩
      · right; exact ⟨x, List.mem_cons_of_mem _ hx, h'⟩
    · rw [if_neg h]
      rcases ih init with h' | ⟨x, hx, h'⟩
      · left; exact h'
      · right; exact ⟨x, List.mem_cons_of_mem _ hx, h'⟩

theorem oldestKey_mem {c : ResponseCache} {k : CacheKey} (h : oldestKey c = some k) :
    ∃ e ∈ c, e.1 = k := by
  match c with
  | [] => simp [oldestKey] at h
  | e :: rest =>
    simp only [oldestKey, Option.some.injEq] at h
    rcases foldl_oldest_origin rest (e.1, e.2.2) with h' | ⟨x, hx, h'⟩
    · exact ⟨e, List.mem_cons_self _ _, by rw [← h, h']⟩
    · exact ⟨x, List.mem_cons_of_mem _ hx, by rw [← h, h']⟩

theorem dictLookup_dictSet_self (k : CacheKey) (v : LLMResponse × ℤ) (c : ResponseCache) :
    dictLookup k (dictSet k v c) = some v := by
  induction c with
  | nil => simp [dictSet, dictLookup, List.find?]
  | cons e rest ih =>
    simp only [dictSet]
    by_cases h : e.1 = k
    · rw [if_pos h]; simp [dictLookup, List.find?]
    · rw [if_neg h]
      have hne : (e.1 == k) = false := by simpa using h
      simpa [dictLookup, List.find?, hne] using ih

theorem mem_dictSet {e : CacheKey × LLMResponse × ℤ} {k : CacheKey} {v : LLMResponse × ℤ}
    {c : ResponseCache} (h : e ∈ dictSet k v c) : e = (k, v) ∨ e ∈ c := by
  induction c with
  | nil => simpa [dictSet] using h
  | cons f rest ih =>
    simp only [dictSet] at h
    by_cases hf : f.1 = k
    · rw [if_pos hf] at h
      rcases List.mem_cons.mp h with h | h
      · left; exact h
      · right; exact List.mem_cons_of_mem _ h
    · rw [if_neg hf] at h
      rcases List.mem_cons.mp h with h | h
      · right; exact h ▸ List.mem_cons_self _ _
      · rcases ih h with h | h
        · left; exact h
        · right; exact List.mem_cons_of_mem _ h

theorem mem_dictDel {e : CacheKey × LLMResponse × ℤ} {k : CacheKey} {c : ResponseCache}
    (h : e ∈ dictDel k c) : e ∈ c :=
  (List.eraseP_sublist c).mem h

/-- Claim C10.  `_cache_response` keeps the response cache bounded: if the
cache holds at most 1000 entries before an insertion, it holds at most 1000
entries afterwards (the insertion transiently reaching 1001 entries triggers
eviction of the entry with the oldest insertion timestamp). -/
theorem cache_response_bounded (cfg : LLMConfig) (k : CacheKey) (resp : LLMResponse)
    (now : ℤ) (cache : ResponseCache) (h : cache.length ≤ 1000) :
    (cacheResponse cfg k resp now cache).length ≤ 1000 := by
  unfold cacheResponse
  by_cases hcond : (cfg.enable_caching && resp.is_successful) = true
  · rw [if_pos hcond]
    have hlen : (dictSet k (resp, now) cache).length ≤ 1001 := by
      calc (dictSet k (resp, now) cache).length ≤ cache.length + 1 := dictSet_length_le _ _ _
        _ ≤ 1001 := by omega
    by_cases hbig : 1000 < (dictSet k (resp, now) cache).length
    · rw [if_pos hbig]
      have hne : dictSet k (resp, now) cache ≠ [] := by
        intro hc; rw [hc] at hbig; simp at hbig
      match hok : oldestKey (dictSet k (resp, now) cache) with
      | none =>
        exfalso
        match hc : dictSet k (resp, now) cache with
        | [] => exact hne hc
        | e :: rest => rw [hc] at hok; simp [oldestKey] at hok
      | some k' =>
        obtain ⟨e, hmem, hek⟩ := oldestKey_mem hok
        have hp : (fun f : CacheKey × LLMResponse × ℤ => f.1 == k') e = true := by
          simpa using hek
        have := @List.length_eraseP_add_one _ (fun f => f.1 == k')
          (dictSet k (resp, now) cache) e hmem hp
        simp only [dictDel]
        omega
    · rw [if_neg hbig]; omega
  · rw [if_neg hcond]; exact h

/-- Witness for `cache_response_bounded`: inserting into an empty cache. -/
theorem cache_response_bounded_witness :
    ([] : ResponseCache).length ≤ 1000 ∧
    (cacheResponse { model := "m" } ⟨"p", "", 0, 500⟩
      { status := ResponseStatus.success,
        data := some ⟨"hello"⟩,
        metadata := { provider := "mock", model := "m", response_time_ms := 0 } }
      0 []).length ≤ 1000 :=
  ⟨by decide, cache_response_bounded _ _ _ _ _ (by decide)⟩

theorem mkLLMResponseData_ok {content : String} {d : LLMResponseData}
    (h : mkLLMResponseData content = .ok d) : pyStrip d.content ≠ "" := by
  unfold mkLLMResponseData at h
  by_cases hc : pyStrip content = ""
  · rw [if_pos hc] at h; cases h
  · rw [if_neg hc] at h
    cases h
    exact hc

theorem attemptGeneration_ok_shape {cfg : LLMConfig} {provider : String}
    {oracle : CapabilityOracle} {inv : ℕ} {stats : UsageStats} {r : LLMResponse}
    {st' : UsageStats} (h : attemptGeneration cfg provider oracle inv stats = (.ok r, st')) :
    r.status = ResponseStatus.success ∧ r.error = none ∧
    ∃ d, r.data = some d ∧ pyStrip d.content ≠ "" := by
  unfold attemptGeneration at h
  match ho : oracle inv with
  | .error e => rw [ho] at h; cases h
  | .ok ok =>
    rw [ho] at h
    simp only at h
    match hd : mkLLMResponseData ok.content with
    | .error e => rw [hd] at h; cases h
    | .ok d =>
      rw [hd] at h
      simp only [Prod.mk.injEq, Except.ok.injEq] at h
      obtain ⟨hr, -⟩ := h
      subst hr
      exact ⟨rfl, rfl, d, rfl, mkLLMResponseData_ok hd⟩

theorem retryAttempts_ok_shape {cfg : LLMConfig} {provider : String}
    {oracle : CapabilityOracle} {inv : ℕ} {stats : UsageStats} {rem : ℕ}
    {r : LLMResponse}
    (h : (retryAttempts cfg provider oracle inv stats rem).1 = .ok r) :
    r.status = ResponseStatus.success ∧ r.error = none ∧
    ∃ d, r.data = some d ∧ pyStrip d.content ≠ "" := by
  induction rem generalizing inv stats with
  | zero =>
    simp only [retryAttempts] at h
    match ha : attemptGeneration cfg provider oracle inv stats with
    | (res, st') =>
      rw [ha] at h
      simp only at h
      match res, h with
      | .ok r', h =>
        cases h
        exact attemptGeneration_ok_shape ha
  | succ n ih =>
    simp only [retryAttempts] at h
    match ha : attemptGeneration cfg provider oracle inv stats with
    | (.ok r', st') =>
      rw [ha] at h
      simp only at h
      cases h
      exact attemptGeneration_ok_shape ha
    | (.error e, st') =>
      rw [ha] at h
      simp only at h
      exact ih h

theorem dictLookup_mem {k : CacheKey} {cache : ResponseCache} {v : LLMResponse × ℤ}
    (h : dictLookup k cache = some v) : ∃ e ∈ cache, e.2 = v := by
  unfold dictLookup at h
  match hf : cache.find? (fun e => e.1 == k) with
  | none => rw [hf] at h; cases h
  | some e =>
    rw [hf] at h
    cases h
    exact ⟨e, List.mem_of_find?_eq_some hf, rfl⟩

theorem getCachedResponse_cases (cfg : LLMConfig) (k : CacheKey) (now : ℤ)
    (cache : ResponseCache) :
    (∃ resp ts, dictLookup k cache = some (resp, ts) ∧
      getCachedResponse cfg k now cache =
        (some { resp with metadata := { resp.metadata with cache_hit := true } },
         dictSet k ({ resp with metadata := { resp.metadata with cache_hit := true } }, ts)
           cache)) ∨
    ((getCachedResponse cfg k now cache).1 = none ∧
      ((getCachedResponse cfg k now cache).2 = cache ∨
        (getCachedResponse cfg k now cache).2 = dictDel k cache)) := by
  unfold getCachedResponse
  cases hb : cfg.enable_caching with
  | false => right; simp
  | true =>
    simp only [Bool.not_true, Bool.false_eq_true, if_false]
    match hl : dictLookup k cache with
    | none => right; simp
    | some (resp, ts) =>
      dsimp only
      by_cases ht : now - ts < cfg.cache_ttl
      · left
        refine ⟨resp, ts, rfl, ?_⟩
        rw [if_pos ht]
      · right
        rw [if_neg ht]
        simp

/-- Claim C8.  Every response produced by `generate_response` populates
exactly one of content data or error info: a success response carries
non-empty content and no error, any other status carries error info and no
data.  The cache invariant (only well-formed successful responses stored) is
preserved, so cache hits satisfy the property too. -/
theorem generate_response_exclusive (cfg : LLMConfig) (provider : String)
    (extractErrorInfo : PyErr → LLMErrorInfo) (oracle : CapabilityOracle)
    (prompt : String) (system_prompt : Option String) (now : ℤ) (st : ProviderState)
    (hc : cacheWellFormed st.cache) :
    (generateResponse cfg provider extractErrorInfo oracle prompt system_prompt now st).1.wellFormed ∧
    cacheWellFormed
      (generateResponse cfg provider extractErrorInfo oracle prompt system_prompt now st).2.cache := by
  unfold generateResponse
  dsimp only
  rcases hgc : getCachedResponse cfg (generateCacheKey cfg prompt system_prompt) now st.cache
    with ⟨o, c'⟩
  cases o with
  | some r =>
    dsimp only
    rcases getCachedResponse_cases cfg (generateCacheKey cfg prompt system_prompt) now st.cache
      with ⟨resp, ts, hl, heq⟩ | ⟨h1, -⟩
    · rw [hgc] at heq
      injection heq with he1 he2
      injection he1 with he1
      obtain ⟨e, hmem, hev⟩ := dictLookup_mem hl
      have hwf := hc e hmem
      have hre : e.2.1 = resp := by rw [hev]
      rw [hre] at hwf
      have hwfr : r.wellFormed ∧ r.status = ResponseStatus.success := by
        rw [he1]
        constructor
        · constructor
          · intro _
            exact hwf.1.1 hwf.2
          · intro hne
            exact absurd hwf.2 hne
        · exact hwf.2
      refine ⟨hwfr.1, ?_⟩
      intro f hf
      rw [he2] at hf
      rcases mem_dictSet hf with hfe | hfe
      · rw [hfe]
        dsimp only
        rw [← he1]
        exact ⟨hwfr.1, hwf.2⟩
      · exact hc f hfe
    · rw [hgc] at h1
      cases h1
  | none =>
    simp only []
    have hcwf : cacheWellFormed c' := by
      rcases getCachedResponse_cases cfg (generateCacheKey cfg prompt system_prompt) now st.cache
        with ⟨resp, ts, hl, heq⟩ | ⟨-, h2⟩
      · rw [hgc] at heq; cases heq
      · rw [hgc] at h2
        dsimp only at h2
        rcases h2 with h2 | h2
        · rw [h2]; exact hc
        · rw [h2]
          intro f hf
          exact hc f (mem_dictDel hf)
    rcases hout : retryAttempts cfg provider oracle st.invocations st.stats cfg.max_retries
      with ⟨res, stats', n⟩
    dsimp only
    cases res with
    | ok r =>
      have hshape := retryAttempts_ok_shape (by rw [hout] :
        (retryAttempts cfg provider oracle st.invocations st.stats cfg.max_retries).1 = .ok r)
      obtain ⟨hst, herr, d, hd, hdc⟩ := hshape
      have hwfr : r.wellFormed ∧ r.status = ResponseStatus.success := by
        refine ⟨⟨fun _ => ⟨herr, d, hd, hdc⟩, fun hne => absurd hst hne⟩, hst⟩
      refine ⟨hwfr.1, ?_⟩
      simp only [cacheResponse]
      by_cases hcond : (cfg.enable_caching && r.is_successful) = true
      · rw [if_pos hcond]
        have hins : cacheWellFormed
            (dictSet (generateCacheKey cfg prompt system_prompt) (r, now) c') := by
          intro f hf
          rcases mem_dictSet hf with hfe | hfe
          · rw [hfe]; exact hwfr
          · exact hcwf f hfe
        by_cases hbig : 1000 <
            (dictSet (generateCacheKey cfg prompt system_prompt) (r, now) c').length
        · rw [if_pos hbig]
          match hok : oldestKey (dictSet (generateCacheKey cfg prompt system_prompt) (r, now) c') with
          | none => exact hins
          | some k' =>
            intro f hf
            exact hins f (mem_dictDel hf)
        · rw [if_neg hbig]; exact hins
      · rw [if_neg hcond]; exact hcwf
    | error e =>
      constructor
      · constructor
        · intro hs; cases hs
        · intro _
          exact ⟨rfl, rfl⟩
      · exact hcwf

/-- Witness for `generate_response_exclusive`: fresh provider state (empty
cache trivially satisfies the invariant), capability succeeding at once. -/
theorem generate_response_exclusive_witness :
    cacheWellFormed ([] : ResponseCache) ∧
    (generateResponse cfgRetry "mock" simpleErrInfo failThenOkOracle "p" none 0
      { cache := [] }).1.wellFormed := by
  have hinv : cacheWellFormed ([] : ResponseCache) := by
    intro e he
    simp at he
  exact ⟨hinv, (generate_response_exclusive cfgRetry "mock" simpleErrInfo failThenOkOracle
    "p" none 0 { cache := [] } hinv).1⟩

theorem retryAttempts_all_fail {cfg : LLMConfig} {provider : String}
    {oracle : CapabilityOracle} {inv : ℕ} {stats : UsageStats} {rem : ℕ}
    (hfail : ∀ i, ∃ e, oracle i = .error e) :
    ∃ e, retryAttempts cfg provider oracle inv stats rem = (.error e, stats, rem + 1) := by
  induction rem generalizing inv with
  | zero =>
    obtain ⟨e, he⟩ := hfail inv
    exact ⟨e, by simp only [retryAttempts, attemptGeneration, he]⟩
  | succ n ih =>
    obtain ⟨e, he⟩ := hfail inv
    obtain ⟨e', he'⟩ := @ih (inv + 1)
    exact ⟨e', by simp only [retryAttempts, attemptGeneration, he, he']⟩

/-- Claim C1 (amended).  When the cache misses and the capability fails on
every invocation, `generate_response` returns (it never raises) an
error-status response carrying classified error info — which includes the
`is_recoverable` flag — and no content, after exactly
`max_retries + 1` capability attempts (the initial attempt plus
`max_retries` retries; the loop is `range(max_retries + 1)`). -/
theorem generate_response_retry_exhaustion (cfg : LLMConfig) (provider : String)
    (extractErrorInfo : PyErr → LLMErrorInfo) (oracle : CapabilityOracle)
    (prompt : String) (system_prompt : Option String) (now : ℤ) (st : ProviderState)
    (hmiss : (getCachedResponse cfg (generateCacheKey cfg prompt system_prompt) now
      st.cache).1 = none)
    (hfail : ∀ i, ∃ e, oracle i = .error e) :
    (generateResponse cfg provider extractErrorInfo oracle prompt system_prompt now st).1.status
        = ResponseStatus.error ∧
    (generateResponse cfg provider extractErrorInfo oracle prompt system_prompt now
        st).1.error.isSome = true ∧
    (generateResponse cfg provider extractErrorInfo oracle prompt system_prompt now st).1.data
        = none ∧
    (generateResponse cfg provider extractErrorInfo oracle prompt system_prompt now
        st).2.invocations = st.invocations + (cfg.max_retries + 1) := by
  unfold generateResponse
  dsimp only
  rcases hgc : getCachedResponse cfg (generateCacheKey cfg prompt system_prompt) now st.cache
    with ⟨o, c'⟩
  rw [hgc] at hmiss
  dsimp only at hmiss
  subst hmiss
  obtain ⟨e, he⟩ :=
    @retryAttempts_all_fail cfg provider oracle st.invocations st.stats cfg.max_retries hfail
  rw [he]
  exact ⟨rfl, rfl, rfl, rfl⟩

/-- Witness for `generate_response_retry_exhaustion`: `max_retries = 2`, a
capability that always fails, fresh provider state. -/
theorem generate_response_retry_exhaustion_witness :
    (getCachedResponse cfgRetry (generateCacheKey cfgRetry "p" none) 0
      (({} : ProviderState)).cache).1 = none ∧
    (generateResponse cfgRetry "mock" simpleErrInfo alwaysFailOracle "p" none 0 {}).1.status
      = ResponseStatus.error ∧
    (generateResponse cfgRetry "mock" simpleErrInfo alwaysFailOracle "p" none 0
      {}).2.invocations = 3 := by
  have h := generate_response_retry_exhaustion cfgRetry "mock" simpleErrInfo alwaysFailOracle
    "p" none 0 {} rfl (fun _ => ⟨.other "connection refused", rfl⟩)
  exact ⟨rfl, h.1, by simpa using h.2.2.2⟩

/-- Counterexample to claim C1 as stated: with `max_retries = 2` and an
always-failing capability, `generate_response` makes 3 attempts (the loop is
`range(max_retries + 1)`), not "exactly max-retries" = 2. -/
theorem generate_response_retry_count_counterexample :
    (generateResponse cfgRetry "mock" simpleErrInfo alwaysFailOracle "p" none 0
      {}).2.invocations = 3 ∧
    cfgRetry.max_retries = 2 ∧
    (generateResponse cfgRetry "mock" simpleErrInfo alwaysFailOracle "p" none 0
      {}).2.invocations ≠ cfgRetry.max_retries := by
  refine ⟨rfl, rfl, ?_⟩
  intro hcontra
  simp only [show (generateResponse cfgRetry "mock" simpleErrInfo alwaysFailOracle "p" none 0
    {}).2.invocations = 3 from rfl] at hcontra
  cases hcontra

/-- Claim C3 (amended).  If a first `generate_response` call on a fresh key
succeeds (with caching enabled, the cache not full, and the second call made
before the TTL expires), the second identical call returns the cached
response flagged as a cache hit with the same content, and performs no
further capability invocation — so the pair's capability invocations are
exactly those of the first call (at most one only when the first call
succeeded on its first attempt). -/
theorem generate_response_cache_idempotent (cfg : LLMConfig) (provider : String)
    (extractErrorInfo : PyErr → LLMErrorInfo) (oracle : CapabilityOracle)
    (prompt : String) (system_prompt : Option String) (t1 t2 : ℤ) (st0 : ProviderState)
    (hcache : cfg.enable_caching = true)
    (hkey : dictLookup (generateCacheKey cfg prompt system_prompt) st0.cache = none)
    (hlen : st0.cache.length < 1000)
    (hsucc : (generateResponse cfg provider extractErrorInfo oracle prompt system_prompt t1
      st0).1.status = ResponseStatus.success)
    (httl : t2 - t1 < cfg.cache_ttl) :
    (generateResponse cfg provider extractErrorInfo oracle prompt system_prompt t2
      (generateResponse cfg provider extractErrorInfo oracle prompt system_prompt t1
        st0).2).1.metadata.cache_hit = true ∧
    (generateResponse cfg provider extractErrorInfo oracle prompt system_prompt t2
      (generateResponse cfg provider extractErrorInfo oracle prompt system_prompt t1
        st0).2).1.status = ResponseStatus.success ∧
    (generateResponse cfg provider extractErrorInfo oracle prompt system_prompt t2
      (generateResponse cfg provider extractErrorInfo oracle prompt system_prompt t1
        st0).2).1.data =
      (generateResponse cfg provider extractErrorInfo oracle prompt system_prompt t1
        st0).1.data ∧
    (generateResponse cfg provider extractErrorInfo oracle prompt system_prompt t2
      (generateResponse cfg provider extractErrorInfo oracle prompt system_prompt t1
        st0).2).2.invocations =
      (generateResponse cfg provider extractErrorInfo oracle prompt system_prompt t1
        st0).2.invocations := by
  have hg1 : getCachedResponse cfg (generateCacheKey cfg prompt system_prompt) t1 st0.cache =
      (none, st0.cache) := by
    simp [getCachedResponse, hcache, hkey]
  rcases hout1 : retryAttempts cfg provider oracle st0.invocations st0.stats cfg.max_retries
    with ⟨res1, stats1, n1⟩
  cases res1 with
  | error e =>
    exfalso
    have hbad : (generateResponse cfg provider extractErrorInfo oracle prompt system_prompt t1
        st0).1.status = ResponseStatus.error := by
      unfold generateResponse
      dsimp only
      rw [hg1]
      dsimp only
      rw [hout1]
    rw [hbad] at hsucc
    cases hsucc
  | ok r =>
    have ho1 : generateResponse cfg provider extractErrorInfo oracle prompt system_prompt t1
        st0 =
        (r, { cache := cacheResponse cfg (generateCacheKey cfg prompt system_prompt) r t1
                st0.cache,
              stats := stats1, invocations := st0.invocations + n1 }) := by
      unfold generateResponse
      dsimp only
      rw [hg1]
      dsimp only
      rw [hout1]
    have hrs : r.status = ResponseStatus.success := by
      rw [ho1] at hsucc
      exact hsucc
    have hcr : cacheResponse cfg (generateCacheKey cfg prompt system_prompt) r t1 st0.cache =
        dictSet (generateCacheKey cfg prompt system_prompt) (r, t1) st0.cache := by
      unfold cacheResponse
      have his : r.is_successful = true := by
        simp [LLMResponse.is_successful, hrs]
      rw [hcache, his]
      have hlen2 : ¬ 1000 <
          (dictSet (generateCacheKey cfg prompt system_prompt) (r, t1) st0.cache).length := by
        have := dictSet_length_le (generateCacheKey cfg prompt system_prompt) (r, t1) st0.cache
        omega
      simp only [Bool.and_self, if_true]
      rw [if_neg hlen2]
    have hl2 : dictLookup (generateCacheKey cfg prompt system_prompt)
        (dictSet (generateCacheKey cfg prompt system_prompt) (r, t1) st0.cache) =
        some (r, t1) :=
      dictLookup_dictSet_self _ _ _
    have hg2 : getCachedResponse cfg (generateCacheKey cfg prompt system_prompt) t2
        (dictSet (generateCacheKey cfg prompt system_prompt) (r, t1) st0.cache) =
        (some { r with metadata := { r.metadata with cache_hit := true } },
         dictSet (generateCacheKey cfg prompt system_prompt)
           ({ r with metadata := { r.metadata with cache_hit := true } }, t1)
           (dictSet (generateCacheKey cfg prompt system_prompt) (r, t1) st0.cache)) := by
      unfold getCachedResponse
      rw [hcache]
      simp only [Bool.not_true, Bool.false_eq_true, if_false]
      rw [hl2]
      dsimp only
      rw [if_pos httl]
    rw [ho1, hcr]
    have ho2 : generateResponse cfg provider extractErrorInfo oracle prompt system_prompt t2
        ({ cache := dictSet (generateCacheKey cfg prompt system_prompt) (r, t1) st0.cache,
           stats := stats1, invocations := st0.invocations + n1 } : ProviderState) =
        ({ r with metadata := { r.metadata with cache_hit := true } },
         { cache := dictSet (generateCacheKey cfg prompt system_prompt)
             ({ r with metadata := { r.metadata with cache_hit := true } }, t1)
             (dictSet (generateCacheKey cfg prompt system_prompt) (r, t1) st0.cache),
           stats := stats1, invocations := st0.invocations + n1 }) := by
      unfold generateResponse
      dsimp only
      rw [hg2]
    rw [ho2]
    exact ⟨rfl, hrs, rfl, rfl⟩

/-- Witness for `generate_response_cache_idempotent`: a capability that
succeeds at once; the second identical call one second later is a cache hit
that does not invoke the capability again. -/
theorem generate_response_cache_idempotent_witness :
    cfgCacheCx.enable_caching = true ∧
    (generateResponse cfgCacheCx "mock" simpleErrInfo failThenOkOracle "p" none 0
      {}).1.status = ResponseStatus.success ∧
    (generateResponse cfgCacheCx "mock" simpleErrInfo failThenOkOracle "p" none 1
      (generateResponse cfgCacheCx "mock" simpleErrInfo failThenOkOracle "p" none 0
        {}).2).1.metadata.cache_hit = true ∧
    (generateResponse cfgCacheCx "mock" simpleErrInfo failThenOkOracle "p" none 1
      (generateResponse cfgCacheCx "mock" simpleErrInfo failThenOkOracle "p" none 0
        {}).2).2.invocations =
      (generateResponse cfgCacheCx "mock" simpleErrInfo failThenOkOracle "p" none 0
        {}).2.invocations := by
  have h := generate_response_cache_idempotent cfgCacheCx "mock" simpleErrInfo failThenOkOracle
    "p" none 0 1 {} rfl rfl (by decide) rfl (by decide)
  exact ⟨rfl, rfl, h.1, h.2.2.2⟩

/-- Counterexample to claim C3 as stated: the capability fails once, then
succeeds; the first call succeeds after 2 invocations and the second call is
a cache hit, so the capability is invoked twice across the two calls — "at
most once" is false whenever the first call needed a retry. -/
theorem generate_response_cache_once_counterexample :
    (generateResponse cfgCacheCx "mock" simpleErrInfo failThenOkOracle "p" none 0
      {}).1.status = ResponseStatus.success ∧
    (generateResponse cfgCacheCx "mock" simpleErrInfo failThenOkOracle "p" none 1
      (generateResponse cfgCacheCx "mock" simpleErrInfo failThenOkOracle "p" none 0
        {}).2).1.metadata.cache_hit = true ∧
    (generateResponse cfgCacheCx "mock" simpleErrInfo failThenOkOracle "p" none 1
      (generateResponse cfgCacheCx "mock" simpleErrInfo failThenOkOracle "p" none 0
        {}).2).2.invocations = 2 ∧
    ¬ (generateResponse cfgCacheCx "mock" simpleErrInfo failThenOkOracle "p" none 1
      (generateResponse cfgCacheCx "mock" simpleErrInfo failThenOkOracle "p" none 0
        {}).2).2.invocations ≤ 1 := by
  refine ⟨rfl, rfl, rfl, ?_⟩
  intro hcontra
  simp only [show (generateResponse cfgCacheCx "mock" simpleErrInfo failThenOkOracle "p" none 1
    (generateResponse cfgCacheCx "mock" simpleErrInfo failThenOkOracle "p" none 0
      {}).2).2.invocations = 2 from rfl] at hcontra
  omega

/-- Claim C5 (amended).  The overall confidence of the parsed query is the
minimum of four fixed terms: the intent confidence (0.5 when absent), a
keywords term equal to 0.8 when the keyword method is "llm_based" and 0.5
otherwise (never the keyword component's own confidence), the time
confidence when time info is present (else the neutral 1.0), and the
expansion confidence when expansion is present (else 1.0).  Absent intent or
keyword components therefore still contribute 0.5 and cap the result. -/
theorem create_parsed_query_confidence (q : String) (lang : Option String)
    (intent : Option IntentComp) (kw : Option KeywordsComp) (ti : Option TimeComp)
    (ex : Option ExpComp) :
    ((createParsedQuery q lang intent kw ti ex).confidence ≤
        (intent.map (fun i => i.confidence.getD (1 / 2))).getD (1 / 2) ∧
      (createParsedQuery q lang intent kw ti ex).confidence ≤
        (if (kw.map (fun k => k.method)).getD "" = "llm_based" then (4 : ℚ) / 5 else 1 / 2) ∧
      (createParsedQuery q lang intent kw ti ex).confidence ≤
        (match ti with | some t => t.confidence.getD (1 / 2) | none => 1) ∧
      (createParsedQuery q lang intent kw ti ex).confidence ≤
        (match ex with | some e => e.expansion_confidence.getD (1 / 2) | none => 1)) ∧
    ((createParsedQuery q lang intent kw ti ex).confidence =
        (intent.map (fun i => i.confidence.getD (1 / 2))).getD (1 / 2) ∨
      (createParsedQuery q lang intent kw ti ex).confidence =
        (if (kw.map (fun k => k.method)).getD "" = "llm_based" then (4 : ℚ) / 5 else 1 / 2) ∨
      (createParsedQuery q lang intent kw ti ex).confidence =
        (match ti with | some t => t.confidence.getD (1 / 2) | none => 1) ∨
      (createParsedQuery q lang intent kw ti ex).confidence =
        (match ex with | some e => e.expansion_confidence.getD (1 / 2) | none => 1)) := by
  set t1 := (intent.map (fun i => i.confidence.getD (1 / 2))).getD (1 / 2) with ht1
  set t2 := (if (kw.map (fun k => k.method)).getD "" = "llm_based" then (4 : ℚ) / 5 else 1 / 2)
    with ht2
  set t3 := (match ti with | some t => t.confidence.getD (1 / 2) | none => (1 : ℚ)) with ht3
  set t4 := (match ex with | some e => e.expansion_confidence.getD (1 / 2) | none => (1 : ℚ))
    with ht4
  have hc : (createParsedQuery q lang intent kw ti ex).confidence = min (min (min t1 t2) t3) t4 :=
    rfl
  rw [hc]
  refine ⟨⟨?_, ?_, ?_, ?_⟩, ?_⟩
  · exact le_trans (min_le_left _ _) (le_trans (min_le_left _ _) (min_le_left _ _))
  · exact le_trans (min_le_left _ _) (le_trans (min_le_left _ _) (min_le_right _ _))
  · exact le_trans (min_le_left _ _) (min_le_right _ _)
  · exact min_le_right _ _
  · rcases min_choice (min (min t1 t2) t3) t4 with h | h
    · rw [h]
      rcases min_choice (min t1 t2) t3 with h' | h'
      · rw [h']
        rcases min_choice t1 t2 with h'' | h''
        · left; rw [h'']
        · right; left; rw [h'']
      · right; right; left; rw [h']
    · right; right; right; rw [h]

/-- Counterexample to claim C5 as stated: only the intent component
participates, with confidence 0.9; the minimum of the participating
confidences would be 0.9, but `_create_parsed_query` yields 0.5 because the
absent keywords component still contributes `0.5`. -/
theorem create_parsed_query_confidence_counterexample :
    (createParsedQuery "q" (some "zh") (some { confidence := some (9 / 10) })
      none none none).confidence = 1 / 2 ∧
    ((1 : ℚ) / 2) ≠ 9 / 10 := by
  constructor
  · show min (min (min ((9 : ℚ) / 10) (1 / 2)) 1) 1 = 1 / 2
    norm_num
  · norm_num

theorem foldl_pymax_spec (l : List (IntentType × ℕ)) (b : IntentType × ℕ) :
    ∃ q, l.foldl (fun best f => if best.2 < f.2 then f else best) b = q ∧
      (q = b ∨ ∃ l1 l2, l = l1 ++ q :: l2 ∧ b.2 < q.2 ∧ ∀ x ∈ l1, x.2 < q.2) ∧
      b.2 ≤ q.2 ∧ ∀ x ∈ l, x.2 ≤ q.2 := by
  induction l generalizing b with
  | nil => exact ⟨b, rfl, Or.inl rfl, le_refl _, by simp⟩
  | cons p rest ih =>
    simp only [List.foldl_cons]
    by_cases h : b.2 < p.2
    · rw [if_pos h]
      obtain ⟨q, hq, hsplit, hble, hall⟩ := ih p
      refine ⟨q, hq, ?_, le_of_lt (lt_of_lt_of_le h hble), ?_⟩
      · rcases hsplit with hqp | ⟨l1, l2, heq, hlt, hl1⟩
        · right
          refine ⟨[], rest, ?_, ?_, by simp⟩
          · rw [hqp]
            rfl
          · rw [hqp]
            exact h
        · right
          refine ⟨p :: l1, l2, ?_, lt_of_lt_of_le h hble, ?_⟩
          · rw [heq]
            rfl
          · intro x hx
            rcases List.mem_cons.mp hx with hx | hx
            · exact hx ▸ hlt
            · exact hl1 x hx
      · intro x hx
        rcases List.mem_cons.mp hx with hx | hx
        · exact hx ▸ hble
        · exact hall x hx
    · rw [if_neg h]
      obtain ⟨q, hq, hsplit, hble, hall⟩ := ih b
      refine ⟨q, hq, ?_, hble, ?_⟩
      · rcases hsplit with hqp | ⟨l1, l2, heq, hlt, hl1⟩
        · left
          exact hqp
        · right
          refine ⟨p :: l1, l2, ?_, hlt, ?_⟩
          · rw [heq]
            rfl
          · intro x hx
            rcases List.mem_cons.mp hx with hx | hx
            · exact hx ▸ lt_of_le_of_lt (le_of_not_lt h) hlt
            · exact hl1 x hx
      · intro x hx
        rcases List.mem_cons.mp hx with hx | hx
        · exact hx ▸ le_trans (le_of_not_lt h) hble
        · exact hall x hx

/-- Claim C6 (amended).  `_rule_based_intent_analysis` scores the categories
by pattern matches plus file-extension detection (`intentScores`) and
returns a category attaining the highest score — specifically the
earliest-inserted maximal entry of the score dict, because Python's `max`
keeps the first maximum; when no category scores, it defaults to document
search.  Ties are therefore resolved by insertion order, not by a fixed
preference for "document". -/
theorem rule_based_intent_argmax (query : String) :
    (intentScores query = [] ∧
      (ruleBasedIntentAnalysis query).intent_type = IntentType.document_search) ∨
    (∃ s l1 l2,
      intentScores query = l1 ++ ((ruleBasedIntentAnalysis query).intent_type, s) :: l2 ∧
      (∀ x ∈ intentScores query, x.2 ≤ s) ∧
      (∀ x ∈ l1, x.2 < s)) := by
  match hs : intentScores query with
  | [] =>
    left
    refine ⟨rfl, ?_⟩
    unfold ruleBasedIntentAnalysis
    rw [hs]
    rfl
  | p :: rest =>
    right
    have hmax : pyMaxScore (intentScores query) =
        some (rest.foldl (fun best f => if best.2 < f.2 then f else best) p) := by
      rw [hs]; rfl
    obtain ⟨q, hqdef, hsplit, hble, hall⟩ := foldl_pymax_spec rest p
    have hit : (ruleBasedIntentAnalysis query).intent_type = q.1 := by
      unfold ruleBasedIntentAnalysis
      rw [hmax, hqdef]
    rw [hqdef] at hmax
    refine ⟨q.2, ?_⟩
    rcases hsplit with hqp | ⟨l1, l2, heq, hlt, hl1⟩
    · refine ⟨[], rest, ?_, ?_, by simp⟩
      · rw [hit, hqp]
        simp
      · intro x hx
        rcases List.mem_cons.mp hx with hx | hx
        · rw [hx, hqp]
        · exact hall x hx
    · refine ⟨p :: l1, l2, ?_, ?_, ?_⟩
      · rw [hit, heq]
        simp
      · intro x hx
        rcases List.mem_cons.mp hx with hx | hx
        · exact hx ▸ hble
        · exact hall x hx
      · intro x hx
        rcases List.mem_cons.mp hx with hx | hx
        · exact hx ▸ hlt
        · exact hl1 x hx

/-- Counterexample to claim C6 as stated: for the query "图片 音乐" the
image and audio categories tie for the highest score (1 each, document does
not score), yet the returned intent is image search, not document search. -/
theorem rule_based_intent_tie_counterexample :
    intentScores "图片 音乐" = [(IntentType.image_search, 1), (IntentType.audio_search, 1)] ∧
    (ruleBasedIntentAnalysis "图片 音乐").intent_type = IntentType.image_search ∧
    IntentType.image_search ≠ IntentType.document_search := by
  refine ⟨by decide, rfl, by decide⟩

/-- Claim C7 (amended).  For every query in which the `上周` (language
"zh") or `last week` (language "en") pattern is the first matching entry of
the relative table — i.e. the query contains it and none of the earlier
patterns of that table match — `_rule_based_parsing` resolves it without
any capability involvement to the previous calendar week: the Monday of the
preceding week (weekday 0) through the following Sunday (start + 6 days),
the week immediately before the current week, with fixed confidence 0.9. -/
theorem rule_based_last_week (query : String) (language : String) (now : ℤ)
    (h : (language = "zh" ∧
        searchLit [("今天" : String).data] query.data = none ∧
        searchLit [("昨天" : String).data] query.data = none ∧
        searchLit [("前天" : String).data] query.data = none ∧
        searchLit [("明天" : String).data] query.data = none ∧
        searchLit [("后天" : String).data] query.data = none ∧
        searchLit [("本周" : String).data, ("这周" : String).data] query.data = none ∧
        (searchLit [("上周" : String).data] query.data).isSome = true) ∨
      (language = "en" ∧
        searchLit [("today" : String).data] query.data = none ∧
        searchLit [("yesterday" : String).data] query.data = none ∧
        searchLit [("tomorrow" : String).data] query.data = none ∧
        searchLit [("this week" : String).data] query.data = none ∧
        (searchLit [("last week" : String).data] query.data).isSome = true)) :
    ∃ m, ruleBasedParsing query language now =
        some ⟨now - pyWeekday now - 7, now - pyWeekday now - 1, some m, 9 / 10⟩ ∧
      pyWeekday (now - pyWeekday now - 7) = 0 ∧
      now - pyWeekday now - 1 = now - pyWeekday now - 7 + 6 ∧
      now - pyWeekday now - 7 + 7 = now - pyWeekday now := by
  have hwd : pyWeekday (now - pyWeekday now - 7) = 0 := by
    unfold pyWeekday
    omega
  rcases h with ⟨hlang, h1, h2, h3, h4, h5, h6, hfound⟩ |
    ⟨hlang, h1, h2, h3, h4, hfound⟩
  · obtain ⟨m, hm⟩ := Option.isSome_iff_exists.mp hfound
    refine ⟨String.mk m, ?_, hwd, by ring, by ring⟩
    subst hlang
    unfold ruleBasedParsing scanRelForLangs
    simp only [relTableFor, if_pos]
    rw [show scanRelPatterns now query.data zhRelPatterns =
        some ⟨now - pyWeekday now - 7, now - pyWeekday now - 1, some (String.mk m), 9 / 10⟩
      from ?_]
    · simp only [zhRelPatterns, scanRelPatterns, tryRelPattern, List.map_cons, List.map_nil,
        h1, h2, h3, h4, h5, h6, hm, Option.map_none, Option.map_some]
      rfl
  · obtain ⟨m, hm⟩ := Option.isSome_iff_exists.mp hfound
    refine ⟨String.mk m, ?_, hwd, by ring, by ring⟩
    subst hlang
    unfold ruleBasedParsing scanRelForLangs
    rw [show relTableFor "en" = some enRelPatterns from rfl]
    dsimp only
    rw [show scanRelPatterns now query.data enRelPatterns =
        some ⟨now - pyWeekday now - 7, now - pyWeekday now - 1, some (String.mk m), 9 / 10⟩
      from ?_]
    · simp only [enRelPatterns, scanRelPatterns, tryRelPattern, List.map_cons, List.map_nil,
        h1, h2, h3, h4, hm, Option.map_none, Option.map_some]
      rfl

/-- Witness for `rule_based_last_week`: the spec's end-to-end query
"产品设计 PPT 上周" with hint "zh" at ordinal 739000 (2024-04-24, a
Wednesday). -/
theorem rule_based_last_week_witness :
    ∃ m, ruleBasedParsing "产品设计 PPT 上周" "zh" 739000 =
        some ⟨739000 - pyWeekday 739000 - 7, 739000 - pyWeekday 739000 - 1, some m, 9 / 10⟩ ∧
      pyWeekday (739000 - pyWeekday 739000 - 7) = 0 ∧
      (739000 : ℤ) - pyWeekday 739000 - 1 = 739000 - pyWeekday 739000 - 7 + 6 ∧
      (739000 : ℤ) - pyWeekday 739000 - 7 + 7 = 739000 - pyWeekday 739000 :=
  rule_based_last_week "产品设计 PPT 上周" "zh" 739000
    (Or.inl ⟨rfl, rfl, rfl, rfl, rfl, rfl, rfl, rfl⟩)

/-- Counterexample to claim C7 as stated: "今天上周" contains `上周`, but
the earlier `今天` pattern matches first, so the parser resolves to today's
single-day range, not the previous calendar week. -/
theorem rule_based_last_week_counterexample :
    (searchLit [("上周" : String).data] ("今天上周" : String).data).isSome = true ∧
    ruleBasedParsing "今天上周" "zh" 739000 =
      some ⟨739000, 739000, some "今天", 9 / 10⟩ ∧
    (739000 : ℤ) ≠ 739000 - pyWeekday 739000 - 7 :=
  ⟨by decide, rfl, by decide⟩

/-- Claim C4 (code bug).  `QueryExpander.expand_query` raises `NameError`
on every input — line 196 of `_dictionary_expansion` reads
`include_translations`, a parameter of `expand_query` that is not in scope
there, and the call site (line 137) is outside any `try` — contradicting
the spec's guarantee that analyzer failures never propagate to the caller.
The statement quantifies over every continuation `rest`, i.e. it holds
regardless of what the unreachable remainder of `expand_query` would do. -/
theorem expand_query_always_raises {α : Type} (rest : Expansions → Except PyErr α)
    (query : String) (language : Option String) :
    expandQuery rest query language = .error (.nameError "include_translations") := rfl

/-- Witness for `expand_query_always_raises`: the spec's end-to-end query. -/
theorem expand_query_always_raises_witness :
    expandQuery (fun e => Except.ok e) "产品设计 PPT" (some "zh") =
      .error (.nameError "include_translations") :=
  expand_query_always_raises (fun e => Except.ok e) "产品设计 PPT" (some "zh")

/-- Claim C9.  For every input that is empty or whitespace-only,
`detect_language` returns primary language "unknown" with confidence 0.0,
an empty language distribution, and `is_mixed = False` (method
"empty_input"); the function is total, so it cannot raise. -/
theorem detect_language_empty (s : String) (h : pyStrip s = "") :
    detectLanguage s = ⟨"unknown", 0, [], false, "empty_input"⟩ := by
  unfold detectLanguage
  rw [if_pos (Or.inr h)]

/-- Witness for `detect_language_empty`: a tab-and-spaces input. -/
theorem detect_language_empty_witness :
    pyStrip "  \t " = "" ∧
    detectLanguage "  \t " = ⟨"unknown", 0, [], false, "empty_input"⟩ :=
  ⟨by decide, detect_language_empty "  \t " (by decide)⟩

/-- Witness for `create_parsed_query_confidence` at a concrete component
set: intent confidence 0.9, the other components absent. -/
theorem create_parsed_query_confidence_witness :
    ((createParsedQuery "q" (some "zh") (some { confidence := some (9 / 10) }) none none
        none).confidence ≤
        (((some { confidence := some (9 / 10) } : Option IntentComp)).map
          (fun i => i.confidence.getD (1 / 2))).getD (1 / 2) ∧
      (createParsedQuery "q" (some "zh") (some { confidence := some (9 / 10) }) none none
        none).confidence ≤
        (if ((none : Option KeywordsComp).map (fun k => k.method)).getD "" = "llm_based"
          then (4 : ℚ) / 5 else 1 / 2) ∧
      (createParsedQuery "q" (some "zh") (some { confidence := some (9 / 10) }) none none
        none).confidence ≤
        (match (none : Option TimeComp) with
          | some t => t.confidence.getD (1 / 2) | none => 1) ∧
      (createParsedQuery "q" (some "zh") (some { confidence := some (9 / 10) }) none none
        none).confidence ≤
        (match (none : Option ExpComp) with
          | some e => e.expansion_confidence.getD (1 / 2) | none => 1)) ∧
    ((createParsedQuery "q" (some "zh") (some { confidence := some (9 / 10) }) none none
        none).confidence =
        (((some { confidence := some (9 / 10) } : Option IntentComp)).map
          (fun i => i.confidence.getD (1 / 2))).getD (1 / 2) ∨
      (createParsedQuery "q" (some "zh") (some { confidence := some (9 / 10) }) none none
        none).confidence =
        (if ((none : Option KeywordsComp).map (fun k => k.method)).getD "" = "llm_based"
          then (4 : ℚ) / 5 else 1 / 2) ∨
      (createParsedQuery "q" (some "zh") (some { confidence := some (9 / 10) }) none none
        none).confidence =
        (match (none : Option TimeComp) with
          | some t => t.confidence.getD (1 / 2) | none => 1) ∨
      (createParsedQuery "q" (some "zh") (some { confidence := some (9 / 10) }) none none
        none).confidence =
        (match (none : Option ExpComp) with
          | some e => e.expansion_confidence.getD (1 / 2) | none => 1)) :=
  create_parsed_query_confidence "q" (some "zh") (some { confidence := some (9 / 10) })
    none none none

/-- Witness for `rule_based_intent_argmax` at the concrete query "音乐". -/
theorem rule_based_intent_argmax_witness :
    (intentScores "音乐" = [] ∧
      (ruleBasedIntentAnalysis "音乐").intent_type = IntentType.document_search) ∨
    (∃ s l1 l2,
      intentScores "音乐" = l1 ++ ((ruleBasedIntentAnalysis "音乐").intent_type, s) :: l2 ∧
      (∀ x ∈ intentScores "音乐", x.2 ≤ s) ∧
      (∀ x ∈ l1, x.2 < s)) :=
  rule_based_intent_argmax "音乐"
